import Mathlib

/-!
# zerg: the io_uring shim (`src/URocket/native/oldshim.c`, `src/Rocket/uringshim.c`)

A shallow embedding of the C shim that the reactor calls through P/Invoke.
The two source files agree line for line on everything up to
`shim_wait_cqe_timeout_in`; `oldshim.c` continues with the cancel, advance and
enter wrappers.

Conventions of the embedding:

* machine integers are `Nat` (unsigned) or `Int` (signed); a conversion to a
  C type of width `w` is written `% 2 ^ w` at the place where C converts;
* a pointer that may be `NULL` is an `Option`;
* memory reached through a pointer (the slots of a buffer ring, the entries
  of the completion queue) is a function from the index to the record;
* what a function does to the outside world (allocator, kernel) is either a
  parameter of the model (`Env`) or an entry appended to a log (`World`).

Most shim functions forward to a liburing inline or to a kernel constant that
is declared in `<liburing.h>` / `<linux/io_uring.h>` and not in this
repository.  Each such callee is a definition of its own, named as in
liburing, whose doc comment says that it is modelled and from what.
-/

namespace Zerg

/-! ## Kernel ABI constants (`<linux/io_uring.h>`) -/

/-- `IORING_SETUP_SQPOLL` is `(1U << 1)`: a kernel thread polls the SQ. -/
def IORING_SETUP_SQPOLL : Nat := 1 <<< 1

/-- `IORING_SETUP_SQ_AFF` is `(1U << 2)`: `sq_thread_cpu` is valid. -/
def IORING_SETUP_SQ_AFF : Nat := 1 <<< 2

/-- `IORING_CQE_F_BUFFER` is `(1U << 0)`: the upper 16 bits of the completion
flags are a buffer id. -/
def IORING_CQE_F_BUFFER : Nat := 1 <<< 0

/-- `IORING_CQE_BUFFER_SHIFT` is `16`. -/
def IORING_CQE_BUFFER_SHIFT : Nat := 16

/-! ## Records -/

/-- The fields of `struct io_uring_sqe` that the shim reads or writes. -/
structure IoUringSqe where
  opcode : Nat
  flags : Nat
  ioprio : Nat
  fd : Int
  off : Nat
  addr : Nat
  len : Nat
  msg_flags : Nat
  user_data : Nat
  buf_group : Nat
  deriving DecidableEq, Repr

/-- The record `struct io_uring_cqe`: `__u64 user_data; __s32 res; __u32 flags`. -/
structure IoUringCqe where
  user_data : Nat
  res : Int
  flags : Nat
  deriving DecidableEq, Repr

/-- The record `struct io_uring_buf` without its `resv` half-word: `__u64 addr;
__u32 len; __u16 bid`.  The `resv` field of slot 0 is where the kernel ABI
overlays the ring tail; it is kept in `IoUringBufRing.tail`, and the `resv`
field of the other slots is written by nothing in the shim. -/
structure IoUringBuf where
  addr : Nat
  len : Nat
  bid : Nat
  deriving DecidableEq, Repr

/-- The shared `struct io_uring_buf_ring`: the published 16-bit tail and the
slots `bufs[i]`, indexed as the C array is. -/
structure IoUringBufRing where
  tail : Nat
  bufs : Nat → IoUringBuf

/-! ## User-data helpers (oldshim.c:194-207) -/

/-- Modelled from the spec: liburing's inline `io_uring_sqe_set_data64`
(`<liburing.h>`, not part of this repository), which the shim's own comment
describes as storing the 64-bit value in the SQE user-data field:
`sqe->user_data = data;`. -/
def io_uring_sqe_set_data64 (sqe : IoUringSqe) (data : Nat) : IoUringSqe :=
  { sqe with user_data := data }

/-- Modelled from the spec: liburing's inline `io_uring_cqe_get_data64`
(`<liburing.h>`), "retrieves the 64-bit user-data from a CQE":
`return cqe->user_data;`. -/
def io_uring_cqe_get_data64 (cqe : IoUringCqe) : Nat :=
  cqe.user_data

/-- `void shim_sqe_set_data64(struct io_uring_sqe* sqe, unsigned long long data)`:
forwards to `io_uring_sqe_set_data64`; `data` arrives as an `unsigned long long`. -/
def shim_sqe_set_data64 (sqe : IoUringSqe) (data : Nat) : IoUringSqe :=
  io_uring_sqe_set_data64 sqe (data % 2 ^ 64)

/-- `unsigned long long shim_cqe_get_data64(const struct io_uring_cqe* cqe)`. -/
def shim_cqe_get_data64 (cqe : IoUringCqe) : Nat :=
  io_uring_cqe_get_data64 cqe % 2 ^ 64

/-! ## Buffer-ring helpers (oldshim.c:240-264) -/

/-- Modelled from the spec: liburing's inline `io_uring_buf_ring_add`
(`<liburing.h>`), which stages one buffer "into the local producer view of
the ring at logical idx" with `mask` "used to wrap idx":

    struct io_uring_buf *buf = &br->bufs[(br->tail + buf_offset) & mask];
    buf->addr = (unsigned long) (uintptr_t) addr;
    buf->len = len;
    buf->bid = bid;

`mask` and `buf_offset` are `int` there; the sum is taken in 32 bits. -/
def io_uring_buf_ring_add (br : IoUringBufRing) (addr len bid mask buf_offset : Nat) :
    IoUringBufRing :=
  let slot := ((br.tail + buf_offset) % 2 ^ 32) &&& mask
  { br with bufs := fun i =>
      if i = slot then { addr := addr % 2 ^ 64, len := len, bid := bid } else br.bufs i }

/-- Modelled from the spec: liburing's inline `io_uring_buf_ring_advance`
(`<liburing.h>`), which publishes `count` staged buffers:

    unsigned short new_tail = br->tail + count;
    io_uring_smp_store_release(&br->tail, new_tail);  -/
def io_uring_buf_ring_advance (br : IoUringBufRing) (count : Nat) : IoUringBufRing :=
  { br with tail := (br.tail + count) % 2 ^ 16 }

/-- `void shim_buf_ring_add(struct io_uring_buf_ring* br, void* addr, unsigned len,
unsigned short bid, unsigned short mask, unsigned idx)`: the arguments are
converted to their parameter types and forwarded. -/
def shim_buf_ring_add (br : IoUringBufRing) (addr len bid mask idx : Nat) : IoUringBufRing :=
  io_uring_buf_ring_add br (addr % 2 ^ 64) (len % 2 ^ 32) (bid % 2 ^ 16) (mask % 2 ^ 16)
    (idx % 2 ^ 32)

/-- `void shim_buf_ring_advance(struct io_uring_buf_ring* br, unsigned count)`. -/
def shim_buf_ring_advance (br : IoUringBufRing) (count : Nat) : IoUringBufRing :=
  io_uring_buf_ring_advance br (count % 2 ^ 32)

/-- The slot index `shim_buf_ring_add` writes for a ring whose tail is `tail`. -/
def buf_ring_slot (tail mask idx : Nat) : Nat :=
  ((tail + idx % 2 ^ 32) % 2 ^ 32) &&& (mask % 2 ^ 16)

/-! ## CQE buffer helpers (oldshim.c:268-278) -/

/-- `int shim_cqe_has_buffer(const struct io_uring_cqe* cqe)`:
`return (cqe->flags & IORING_CQE_F_BUFFER) != 0;`. -/
def shim_cqe_has_buffer (cqe : IoUringCqe) : Int :=
  if cqe.flags &&& IORING_CQE_F_BUFFER ≠ 0 then 1 else 0

/-- `unsigned shim_cqe_buffer_id(const struct io_uring_cqe* cqe)`:
`return cqe->flags >> IORING_CQE_BUFFER_SHIFT;`. -/
def shim_cqe_buffer_id (cqe : IoUringCqe) : Nat :=
  cqe.flags >>> IORING_CQE_BUFFER_SHIFT

/-! ## Completion queue (oldshim.c:141-148, 374-405) -/

/-- `IORING_SETUP_CQE32` is `(1U << 11)`: completions are 32 bytes wide. -/
def IORING_SETUP_CQE32 : Nat := 1 <<< 11

/-- The completion side of `struct io_uring` (`struct io_uring_cq`): the
consumer cursor `*khead`, the kernel's producer cursor `*ktail` (both `unsigned`),
the index mask and the entry array. -/
structure IoUringCq where
  khead : Nat
  ktail : Nat
  ring_mask : Nat
  cqes : Nat → IoUringCqe

/-- The fields of `struct io_uring` that the shim reads: the setup flags,
the ring file descriptor and the completion queue. -/
structure IoUring where
  flags : Nat
  ring_fd : Int
  cq : IoUringCq

/-- Modelled from the spec: liburing's inline `io_uring_cq_ready`
(`<liburing.h>`), "the number of CQEs currently available to be consumed":
`return io_uring_smp_load_acquire(ring->cq.ktail) - *ring->cq.khead;`
(a subtraction of two `unsigned`). -/
def io_uring_cq_ready (ring : IoUring) : Nat :=
  (ring.cq.ktail % 2 ^ 32 + 2 ^ 32 - ring.cq.khead % 2 ^ 32) % 2 ^ 32

/-- Modelled from the spec: liburing's inline `io_uring_cq_advance`
(`<liburing.h>`), which "advances the completion queue head by count entries":

    if (nr) {
        struct io_uring_cq *cq = &ring->cq;
        io_uring_smp_store_release(cq->khead, *cq->khead + nr);
    }  -/
def io_uring_cq_advance (ring : IoUring) (nr : Nat) : IoUring :=
  if nr ≠ 0 then
    { ring with cq := { ring.cq with khead := (ring.cq.khead + nr) % 2 ^ 32 } }
  else ring

/-- Modelled from the spec: liburing's `io_uring_peek_batch_cqe` (`queue.c`),
"peeks up to count CQEs without blocking", for a queue with no overflow
pending in the kernel; the result lists the entries the caller's `cqes[]`
array points to:

    ready = io_uring_cq_ready(ring);
    if (ready) {
        unsigned head = *ring->cq.khead;
        unsigned mask = ring->cq.ring_mask;
        count = count > ready ? ready : count;
        last = head + count;
        for (; head != last; head++, i++)
            cqes[i] = &ring->cq.cqes[(head & mask) << shift];
        return count;
    }
    return 0;  -/
def io_uring_peek_batch_cqe (ring : IoUring) (count : Nat) : List IoUringCqe :=
  let shift := if ring.flags &&& IORING_SETUP_CQE32 ≠ 0 then 1 else 0
  let ready := io_uring_cq_ready ring
  let count := if count > ready then ready else count
  (List.range count).map fun i =>
    ring.cq.cqes ((((ring.cq.khead + i) % 2 ^ 32) &&& ring.cq.ring_mask) <<< shift)

/-- `int shim_peek_batch_cqe(struct io_uring* ring, struct io_uring_cqe** cqes,
unsigned count)`; the returned `int` is the length of the list. -/
def shim_peek_batch_cqe (ring : IoUring) (count : Nat) : List IoUringCqe :=
  io_uring_peek_batch_cqe ring (count % 2 ^ 32)

/-- `void shim_cq_advance(struct io_uring* ring, unsigned count)`: forwards to
`io_uring_cq_advance`; there is no return value and no check. -/
def shim_cq_advance (ring : IoUring) (count : Nat) : IoUring :=
  io_uring_cq_advance ring (count % 2 ^ 32)

/-- `unsigned shim_cq_ready(struct io_uring* ring)`. -/
def shim_cq_ready (ring : IoUring) : Nat :=
  io_uring_cq_ready ring

/-! ## Ring lifecycle (oldshim.c:33-125) -/

/-- The record `struct io_sqring_offsets` (`<linux/io_uring.h>`). -/
structure IoSqringOffsets where
  head : Nat
  tail : Nat
  ring_mask : Nat
  ring_entries : Nat
  flags : Nat
  dropped : Nat
  array : Nat
  resv1 : Nat
  user_addr : Nat
  deriving DecidableEq, Repr

/-- The record `struct io_cqring_offsets` (`<linux/io_uring.h>`). -/
structure IoCqringOffsets where
  head : Nat
  tail : Nat
  ring_mask : Nat
  ring_entries : Nat
  overflow : Nat
  cqes : Nat
  flags : Nat
  resv1 : Nat
  user_addr : Nat
  deriving DecidableEq, Repr

/-- The record `struct io_uring_params` (`<linux/io_uring.h>`), every field. -/
structure IoUringParams where
  sq_entries : Nat
  cq_entries : Nat
  flags : Nat
  sq_thread_cpu : Nat
  sq_thread_idle : Nat
  features : Nat
  wq_fd : Nat
  resv0 : Nat
  resv1 : Nat
  resv2 : Nat
  sq_off : IoSqringOffsets
  cq_off : IoCqringOffsets
  deriving DecidableEq, Repr

/-- The parameter block after `memset(&p, 0, sizeof(p))`. -/
def IoUringParams.zeroed : IoUringParams :=
  { sq_entries := 0, cq_entries := 0, flags := 0, sq_thread_cpu := 0, sq_thread_idle := 0,
    features := 0, wq_fd := 0, resv0 := 0, resv1 := 0, resv2 := 0,
    sq_off := ⟨0, 0, 0, 0, 0, 0, 0, 0, 0⟩, cq_off := ⟨0, 0, 0, 0, 0, 0, 0, 0, 0⟩ }

/-- A call the lifecycle functions make into libc or liburing, with its
arguments; a ring pointer is the address `malloc` returned. -/
inductive LibCall where
  | malloc
  | queue_init_params (entries : Nat) (ring : Nat) (p : IoUringParams)
  | queue_init (entries : Nat) (ring : Nat) (flags : Nat)
  | queue_exit (ring : Nat)
  | free (ring : Nat)
  deriving DecidableEq, Repr

/-- What the lifecycle functions do not decide themselves: the pointer
`malloc(sizeof(struct io_uring))` returns (`none` is `NULL`) and the `int`
that `io_uring_queue_init_params` / `io_uring_queue_init` return for the
entries and parameters (or flags) they are given. -/
structure Env where
  malloc : Option Nat
  io_uring_queue_init_params : Nat → IoUringParams → Int
  io_uring_queue_init : Nat → Nat → Int

/-- The allocator's view: the ring blocks that are allocated and not yet
freed, and the calls made so far, oldest first. -/
structure World where
  live : List Nat
  calls : List LibCall
  deriving DecidableEq, Repr

/-- What a creator returns: the ring pointer (`none` is `NULL`), the cell
`err_out` points to afterwards (`none` when `err_out` is `NULL`), and the world. -/
structure Created where
  ret : Option Nat
  err_out : Option Int
  world : World
  deriving DecidableEq, Repr

/-- Lines 60-74 of `shim_create_ring_ex`: the parameter block built from the
arguments before it is handed to `io_uring_queue_init_params`.

    memset(&p, 0, sizeof(p));
    p.flags = flags;
    if (flags & IORING_SETUP_SQPOLL) {
        p.sq_thread_idle = sq_thread_idle_ms;
        if ((flags & IORING_SETUP_SQ_AFF) && sq_thread_cpu >= 0)
            p.sq_thread_cpu = sq_thread_cpu;
    }  -/
def shim_create_ring_ex_params (flags : Nat) (sq_thread_cpu : Int) (sq_thread_idle_ms : Nat) :
    IoUringParams :=
  let p := IoUringParams.zeroed
  let p := { p with flags := flags }
  if flags &&& IORING_SETUP_SQPOLL ≠ 0 then
    let p := { p with sq_thread_idle := sq_thread_idle_ms }
    if flags &&& IORING_SETUP_SQ_AFF ≠ 0 ∧ sq_thread_cpu ≥ 0 then
      { p with sq_thread_cpu := sq_thread_cpu.toNat % 2 ^ 32 }
    else p
  else p

/-- `struct io_uring* shim_create_ring_ex(unsigned entries, unsigned flags,
int sq_thread_cpu, unsigned sq_thread_idle_ms, int* err_out)`. -/
def shim_create_ring_ex (env : Env) (w : World) (entries flags : Nat) (sq_thread_cpu : Int)
    (sq_thread_idle_ms : Nat) (err_out : Option Int) : Created :=
  match env.malloc with
  | none =>
    { ret := none, err_out := err_out.map fun _ => -12,
      world := { w with calls := w.calls ++ [LibCall.malloc] } }
  | some ring =>
    let p := shim_create_ring_ex_params (flags % 2 ^ 32) sq_thread_cpu (sq_thread_idle_ms % 2 ^ 32)
    let rc := env.io_uring_queue_init_params (entries % 2 ^ 32) p
    if rc < 0 then
      { ret := none, err_out := err_out.map fun _ => rc,
        world := { live := (ring :: w.live).erase ring,
                   calls := w.calls ++ [LibCall.malloc,
                     LibCall.queue_init_params (entries % 2 ^ 32) ring p, LibCall.free ring] } }
    else
      { ret := some ring, err_out := err_out.map fun _ => 0,
        world := { live := ring :: w.live,
                   calls := w.calls ++ [LibCall.malloc,
                     LibCall.queue_init_params (entries % 2 ^ 32) ring p] } }

/-- `struct io_uring* shim_create_ring(unsigned entries, int* err_out)`: the same
with `io_uring_queue_init(entries, ring, 0)`. -/
def shim_create_ring (env : Env) (w : World) (entries : Nat) (err_out : Option Int) : Created :=
  match env.malloc with
  | none =>
    { ret := none, err_out := err_out.map fun _ => -12,
      world := { w with calls := w.calls ++ [LibCall.malloc] } }
  | some ring =>
    let rc := env.io_uring_queue_init (entries % 2 ^ 32) 0
    if rc < 0 then
      { ret := none, err_out := err_out.map fun _ => rc,
        world := { live := (ring :: w.live).erase ring,
                   calls := w.calls ++ [LibCall.malloc,
                     LibCall.queue_init (entries % 2 ^ 32) ring 0, LibCall.free ring] } }
    else
      { ret := some ring, err_out := err_out.map fun _ => 0,
        world := { live := ring :: w.live,
                   calls := w.calls ++ [LibCall.malloc,
                     LibCall.queue_init (entries % 2 ^ 32) ring 0] } }

/-- `void shim_destroy_ring(struct io_uring* ring)`:

    if (!ring) return;
    io_uring_queue_exit(ring);
    free(ring);

The pointer is passed by value; the function keeps no record of what it freed. -/
def shim_destroy_ring (ring : Option Nat) (w : World) : World :=
  match ring with
  | none => w
  | some r =>
    { live := w.live.erase r,
      calls := w.calls ++ [LibCall.queue_exit r, LibCall.free r] }

/-! ## Callers described by the contract -/

/-- The producer's batch: `shim_buf_ring_add` for each buffer of the list in
turn, at logical indices `idx`, `idx + 1`, ... -/
def stage_buffers (mask : Nat) : IoUringBufRing → Nat → List IoUringBuf → IoUringBufRing
  | br, _, [] => br
  | br, idx, b :: bs =>
    stage_buffers mask (shim_buf_ring_add br b.addr b.len b.bid mask idx) (idx + 1) bs

/-- The `n` slots the consumer of the ring reads when it moves its 16-bit head from
`head` up to `head + n`: slot `head & mask`, then `(head + 1) & mask`, ... -/
def consumer_view (br : IoUringBufRing) (mask head n : Nat) : List IoUringBuf :=
  (List.range n).map fun k => br.bufs (((head + k) % 2 ^ 16) &&& mask)

/-- A buffer whose fields fit their C types. -/
def IoUringBuf.wf (b : IoUringBuf) : Prop :=
  b.addr < 2 ^ 64 ∧ b.len < 2 ^ 32 ∧ b.bid < 2 ^ 16

/-- The record a slot holds once `shim_buf_ring_add` has converted the
buffer's fields to the parameter types. -/
def IoUringBuf.stored (b : IoUringBuf) : IoUringBuf :=
  { addr := b.addr % 2 ^ 64, len := b.len % 2 ^ 32, bid := b.bid % 2 ^ 16 }

/-! ## Concrete states used as examples -/

/-- A buffer ring whose tail is about to wrap (65535) and whose slots are blank. -/
def buf_ring_at_wrap : IoUringBufRing :=
  { tail := 65535, bufs := fun _ => ⟨0, 0, 0⟩ }

/-- A ring with one completion ready: head 0, tail 1, four entries, entry `i`
carrying user-data `i`. -/
def ring_one_ready : IoUring :=
  { flags := 0, ring_fd := 3,
    cq := { khead := 0, ktail := 1, ring_mask := 3, cqes := fun i => ⟨i, 0, 0⟩ } }

/-- A ring with three completions ready across the 32-bit wrap of the cursors:
head `2^32 - 1`, tail 2. -/
def ring_three_ready : IoUring :=
  { flags := 0, ring_fd := 3,
    cq := { khead := 4294967295, ktail := 2, ring_mask := 3, cqes := fun i => ⟨i, 0, 0⟩ } }

/-- An environment in which `malloc` returns block 1 and the kernel rejects
every configuration with `-EPERM` (-1). -/
def env_rejecting : Env :=
  { malloc := some 1,
    io_uring_queue_init_params := fun _ _ => -1,
    io_uring_queue_init := fun _ _ => -1 }

/-- The world before anything was allocated. -/
def world_empty : World := { live := [], calls := [] }

/-- The world in which ring block 1 is allocated and initialised. -/
def world_one_ring : World :=
  { live := [1], calls := [LibCall.malloc, LibCall.queue_init 8 1 0] }

/-! ## Introspection (oldshim.c:21-29) -/

/-- `unsigned shim_get_ring_flags(struct io_uring* ring)`:

    if (!ring) return 0;
    return ring->flags;

The result is paired with the ring as the call leaves it (`none` is `NULL`);
the function assigns to nothing. -/
def shim_get_ring_flags (ring : Option IoUring) : Nat × Option IoUring :=
  match ring with
  | none => (0, none)
  | some r => (r.flags, some r)

/-! ## Timed wait (oldshim.c:315-333) -/

/-- The value a signed 32-bit C object holds after `x` is converted to it. -/
def wrap_s32 (x : Int) : Int := (x + 2 ^ 31) % 2 ^ 32 - 2 ^ 31

/-- The value a signed 64-bit C object holds after `x` is converted to it. -/
def wrap_s64 (x : Int) : Int := (x + 2 ^ 63) % 2 ^ 64 - 2 ^ 63

/-- The record `struct __kernel_timespec` (`<linux/time_types.h>`): two signed
64-bit fields. -/
structure KernelTimespec where
  tv_sec : Int
  tv_nsec : Int
  deriving DecidableEq, Repr

/-- Lines 328-330 of `shim_wait_cqe_timeout_in`, with `long timeout_ms` of 64 bits:

    ts.tv_sec  = timeout_ms / 1000;
    ts.tv_nsec = (timeout_ms % 1000) * 1000000LL;

C's `/` and `%` truncate towards zero (`Int.tdiv`, `Int.tmod`); every
intermediate value is stored in 64 bits. -/
def shim_wait_cqe_timeout_in_ts (timeout_ms : Int) : KernelTimespec :=
  { tv_sec := wrap_s64 (Int.tdiv timeout_ms 1000),
    tv_nsec := wrap_s64 (wrap_s64 (Int.tmod timeout_ms 1000) * 1000000) }

/-- `int shim_wait_cqe_timeout_in(struct io_uring* ring, struct io_uring_cqe** cqe,
long timeout_ms)`: builds the timespec and returns what
`io_uring_wait_cqe_timeout(ring, cqe, &ts)` returns; that wait is the parameter
`io_uring_wait_cqe_timeout`, a function of the timespec it is handed. -/
def shim_wait_cqe_timeout_in (io_uring_wait_cqe_timeout : KernelTimespec → Int)
    (timeout_ms : Int) : Int :=
  io_uring_wait_cqe_timeout (shim_wait_cqe_timeout_in_ts (wrap_s64 timeout_ms))

/-! ## Multishot receive with buffer select (oldshim.c:180-190, 211-226) -/

/-- `IORING_OP_RECV` is entry 27 of `enum io_uring_op` (`<linux/io_uring.h>`). -/
def IORING_OP_RECV : Nat := 27

/-- `IORING_RECV_MULTISHOT` is `(1U << 1)`, a bit of `sqe->ioprio`. -/
def IORING_RECV_MULTISHOT : Nat := 1 <<< 1

/-- `IOSQE_BUFFER_SELECT` is `(1U << IOSQE_BUFFER_SELECT_BIT)` with bit number 5:
select a buffer from `sqe->buf_group`. -/
def IOSQE_BUFFER_SELECT : Nat := 1 <<< 5

/-- Modelled from the spec: liburing's inline `io_uring_prep_recv_multishot`
(`<liburing.h>`, not part of this repository), the preparation of "a standing
receive", on the fields of `IoUringSqe`:

    io_uring_prep_rw(IORING_OP_RECV, sqe, sockfd, buf, (__u32) len, 0);
        /* opcode = op; flags = 0; ioprio = 0; fd = fd; off = offset;
           addr = (unsigned long) addr; len = len; rw_flags = 0; buf_index = 0; */
    sqe->msg_flags = (__u32) flags;
    sqe->ioprio |= IORING_RECV_MULTISHOT;

`rw_flags` shares its storage with `msg_flags`, and `buf_index` with `buf_group`. -/
def io_uring_prep_recv_multishot (sqe : IoUringSqe) (sockfd : Int) (buf len : Nat)
    (flags : Int) : IoUringSqe :=
  let sqe := { sqe with
    opcode := IORING_OP_RECV, flags := 0, ioprio := 0, fd := sockfd, off := 0,
    addr := buf % 2 ^ 64, len := len % 2 ^ 32, msg_flags := 0, buf_group := 0 }
  let sqe := { sqe with msg_flags := (flags % 2 ^ 32).toNat }
  { sqe with ioprio := (sqe.ioprio ||| IORING_RECV_MULTISHOT) % 2 ^ 16 }

/-- `void shim_prep_recv_multishot_select(struct io_uring_sqe* sqe, int fd,
unsigned buf_group, int flags)`:

    io_uring_prep_recv_multishot(sqe, fd, NULL, 0, flags);
    sqe->flags |= IOSQE_BUFFER_SELECT;
    sqe->buf_group = buf_group;

`sqe->flags` is a `__u8` and `sqe->buf_group` a `__u16` (`<linux/io_uring.h>`);
the `unsigned` argument is converted on assignment. -/
def shim_prep_recv_multishot_select (sqe : IoUringSqe) (fd : Int) (buf_group : Nat)
    (flags : Int) : IoUringSqe :=
  let sqe := io_uring_prep_recv_multishot sqe fd 0 0 flags
  let sqe := { sqe with flags := (sqe.flags ||| IOSQE_BUFFER_SELECT) % 2 ^ 8 }
  { sqe with buf_group := (buf_group % 2 ^ 32) % 2 ^ 16 }

/-- The fields of `struct io_uring_buf_reg` that name the registered ring:
`__u32 ring_entries; __u16 bgid`. -/
structure IoUringBufReg where
  ring_entries : Nat
  bgid : Nat
  deriving DecidableEq, Repr

/-- Modelled from the spec: the registration liburing's `io_uring_setup_buf_ring`
(`setup.c`, not part of this repository) hands to the kernel for a ring of
`nentries` slots "under buffer-group bgid"; the mapping of the ring memory and
the returned pointer are left out.

    reg.ring_entries = nentries;
    reg.bgid = bgid;              /* int to __u16 */  -/
def io_uring_setup_buf_ring (nentries : Nat) (bgid : Int) : IoUringBufReg :=
  { ring_entries := nentries, bgid := (bgid % 2 ^ 16).toNat }

/-- `struct io_uring_buf_ring* shim_setup_buf_ring(struct io_uring* ring,
unsigned entries, unsigned bgid, unsigned flags, int* ret_out)`:
`return io_uring_setup_buf_ring(ring, entries, (int)bgid, flags, ret_out);`,
as the registration it makes. -/
def shim_setup_buf_ring (entries bgid : Nat) : IoUringBufReg :=
  io_uring_setup_buf_ring (entries % 2 ^ 32) (wrap_s32 ((bgid % 2 ^ 32 : Nat) : Int))

/-- A submission entry with every field zero. -/
def sqe_blank : IoUringSqe := ⟨0, 0, 0, 0, 0, 0, 0, 0, 0, 0⟩

/-! ## Direct enter wrappers (oldshim.c:407-505) -/

/-- `IORING_ENTER_EXT_ARG` is `(1U << 3)`: the argument is a
`struct io_uring_getevents_arg`. -/
def IORING_ENTER_EXT_ARG : Nat := 1 <<< 3

/-- `EINVAL` is 22 (`<errno.h>`). -/
def EINVAL : Int := 22

/-- The record `struct io_uring_getevents_arg`: `__u64 sigmask; __u32 sigmask_sz;
__u32 pad; __u64 ts`. -/
structure IoUringGeteventsArg where
  sigmask : Nat
  sigmask_sz : Nat
  pad : Nat
  ts : Nat
  deriving DecidableEq, Repr

/-- `sizeof(struct io_uring_getevents_arg)`: 8 + 4 + 4 + 8 bytes. -/
def sizeof_io_uring_getevents_arg : Nat := 8 + 4 + 4 + 8

/-- `sizeof(struct __kernel_timespec)`: two 8-byte fields. -/
def sizeof_kernel_timespec : Nat := 8 + 8

/-- What is passed in the pointer argument of an enter call: `NULL`, the
caller's own `struct __kernel_timespec*` (its address), or the address of a
local `struct io_uring_getevents_arg` (its contents). -/
inductive EnterArg where
  | null
  | timespec (addr : Nat)
  | getevents (arg : IoUringGeteventsArg)
  deriving DecidableEq, Repr

/-- An entry into the kernel made by an enter wrapper, with its arguments:
`syscall(__NR_io_uring_enter, fd, to_submit, min_complete, flags, arg, argsz)`,
or liburing's `io_uring_enter(fd, to_submit, min_complete, flags, sig)` and
`io_uring_enter2(fd, to_submit, min_complete, flags, sig, sz)`. -/
inductive KernelCall where
  | syscall_io_uring_enter (fd : Int) (to_submit min_complete flags : Nat) (arg : EnterArg)
      (argsz : Nat)
  | io_uring_enter (fd to_submit min_complete flags : Nat) (sig : EnterArg)
  | io_uring_enter2 (fd to_submit min_complete flags : Nat) (sig : EnterArg) (sz : Nat)
  deriving DecidableEq, Repr

/-- The flags word of an enter call. -/
def KernelCall.flags : KernelCall → Nat
  | syscall_io_uring_enter _ _ _ flags _ _ => flags
  | io_uring_enter _ _ _ flags _ => flags
  | io_uring_enter2 _ _ _ flags _ _ => flags

/-- The pointer argument of an enter call. -/
def KernelCall.arg : KernelCall → EnterArg
  | syscall_io_uring_enter _ _ _ _ arg _ => arg
  | io_uring_enter _ _ _ _ sig => sig
  | io_uring_enter2 _ _ _ _ sig _ => sig

/-- The size argument of an enter call; `io_uring_enter` passes `_NSIG / 8`. -/
def KernelCall.argsz : KernelCall → Nat
  | syscall_io_uring_enter _ _ _ _ _ argsz => argsz
  | io_uring_enter _ _ _ _ _ => 8
  | io_uring_enter2 _ _ _ _ _ sz => sz

/-- What an enter wrapper returns (an `int`) and the kernel entries it made,
oldest first. -/
structure Entered where
  ret : Int
  calls : List KernelCall
  deriving DecidableEq, Repr

/-- `int shim_enter2(struct io_uring* ring, unsigned to_submit, unsigned min_complete,
unsigned flags, struct __kernel_timespec* ts)`:

    return (int)syscall(__NR_io_uring_enter, ring->ring_fd, to_submit, min_complete,
                        flags, ts, sizeof(*ts));

`kernel` gives the `long` each entry returns; `ring` is dereferenced without a
test, so it is a ring and not an `Option`; `ts` is `none` for `NULL`. -/
def shim_enter2 (kernel : KernelCall → Int) (ring : IoUring)
    (to_submit min_complete flags : Nat) (ts : Option Nat) : Entered :=
  let arg := match ts with
    | none => EnterArg.null
    | some t => EnterArg.timespec (t % 2 ^ 64)
  let call := KernelCall.syscall_io_uring_enter ring.ring_fd (to_submit % 2 ^ 32)
    (min_complete % 2 ^ 32) (flags % 2 ^ 32) arg sizeof_kernel_timespec
  { ret := wrap_s32 (kernel call), calls := [call] }

/-- `int shim_enter4(...)`, same parameters:

    if (ts == NULL)
        return io_uring_enter(ring->ring_fd, to_submit, min_complete, flags, NULL);
    struct io_uring_getevents_arg arg = {
        .sigmask = 0, .sigmask_sz = 0, .ts = (__u64)(unsigned long)ts };
    return io_uring_enter2(ring->ring_fd, to_submit, min_complete,
                           flags | IORING_ENTER_EXT_ARG, &arg, sizeof(arg));

The member `pad`, which the initialiser does not name, is zero. liburing takes
the descriptor as `unsigned`. -/
def shim_enter4 (kernel : KernelCall → Int) (ring : IoUring)
    (to_submit min_complete flags : Nat) (ts : Option Nat) : Entered :=
  match ts with
  | none =>
    let call := KernelCall.io_uring_enter (ring.ring_fd % 2 ^ 32).toNat (to_submit % 2 ^ 32)
      (min_complete % 2 ^ 32) (flags % 2 ^ 32) EnterArg.null
    { ret := wrap_s32 (kernel call), calls := [call] }
  | some t =>
    let arg : IoUringGeteventsArg := { sigmask := 0, sigmask_sz := 0, pad := 0, ts := t % 2 ^ 64 }
    let call := KernelCall.io_uring_enter2 (ring.ring_fd % 2 ^ 32).toNat (to_submit % 2 ^ 32)
      (min_complete % 2 ^ 32) ((flags % 2 ^ 32) ||| IORING_ENTER_EXT_ARG)
      (EnterArg.getevents arg) sizeof_io_uring_getevents_arg
    { ret := wrap_s32 (kernel call), calls := [call] }

/-- `int shim_enter(...)`, same parameters; here `ring` may be `NULL`:

    if (!ring) return -EINVAL;
    if (ts == NULL)
        return (int)syscall(__NR_io_uring_enter, ring->ring_fd, to_submit,
                            min_complete, flags, NULL, 0);
    struct io_uring_getevents_arg arg;
    arg.sigmask = 0; arg.sigmask_sz = 0; arg.pad = 0;
    arg.ts = (uint64_t)(uintptr_t)ts;
    return (int)syscall(__NR_io_uring_enter, ring->ring_fd, to_submit, min_complete,
                        flags | IORING_ENTER_EXT_ARG, &arg, sizeof(arg));  -/
def shim_enter (kernel : KernelCall → Int) (ring : Option IoUring)
    (to_submit min_complete flags : Nat) (ts : Option Nat) : Entered :=
  match ring with
  | none => { ret := -EINVAL, calls := [] }
  | some r =>
    match ts with
    | none =>
      let call := KernelCall.syscall_io_uring_enter r.ring_fd (to_submit % 2 ^ 32)
        (min_complete % 2 ^ 32) (flags % 2 ^ 32) EnterArg.null 0
      { ret := wrap_s32 (kernel call), calls := [call] }
    | some t =>
      let arg : IoUringGeteventsArg :=
        { sigmask := 0, sigmask_sz := 0, pad := 0, ts := t % 2 ^ 64 }
      let call := KernelCall.syscall_io_uring_enter r.ring_fd (to_submit % 2 ^ 32)
        (min_complete % 2 ^ 32) ((flags % 2 ^ 32) ||| IORING_ENTER_EXT_ARG)
        (EnterArg.getevents arg) sizeof_io_uring_getevents_arg
      { ret := wrap_s32 (kernel call), calls := [call] }

/-- A kernel that answers every entry with 1. -/
def kernel_one : KernelCall → Int := fun _ => 1

/-! ## Arithmetic used by the proofs -/

theorem shiftLeft_or_shiftRight (hi lo k : Nat) (hlo : lo < 2 ^ k) :
    ((hi <<< k) ||| lo) >>> k = hi := by
  apply Nat.eq_of_testBit_eq
  intro i
  have hbit : lo.testBit (k + i) = false :=
    Nat.testBit_lt_two_pow (lt_of_lt_of_le hlo (Nat.pow_le_pow_right (by norm_num) (by omega)))
  simp [Nat.testBit_shiftRight, Nat.testBit_or, Nat.testBit_shiftLeft, hbit]

theorem and_one_ne_zero_iff (x : Nat) : x &&& 1 ≠ 0 ↔ x.testBit 0 = true := by
  rw [Nat.and_one_is_mod, Nat.testBit_zero]
  have := Nat.mod_two_eq_zero_or_one x
  constructor
  · intro h
    rcases this with h0 | h1
    · exact absurd h0 h
    · simp [h1]
  · intro h h0
    simp [h0] at h

theorem has_buffer_eq (cqe : IoUringCqe) :
    shim_cqe_has_buffer cqe = if cqe.flags.testBit 0 then 1 else 0 := by
  unfold shim_cqe_has_buffer IORING_CQE_F_BUFFER
  by_cases h : cqe.flags.testBit 0 = true
  · have h1 : cqe.flags &&& 1 <<< 0 ≠ 0 := (and_one_ne_zero_iff _).2 h
    rw [if_pos h1, if_pos h]
  · have h1 : ¬ (cqe.flags &&& 1 <<< 0 ≠ 0) := fun hc => h ((and_one_ne_zero_iff _).1 hc)
    rw [if_neg h1, if_neg h]

theorem testBit_zero_xor_shiftLeft (x m k : Nat) :
    (x ^^^ (m <<< (k + 1))).testBit 0 = x.testBit 0 := by
  rw [Nat.testBit_xor, Nat.testBit_shiftLeft]
  simp

/-! ### Buffer ring -/

theorem stored_of_wf (b : IoUringBuf) (h : b.wf) : b.stored = b := by
  obtain ⟨h1, h2, h3⟩ := h
  cases b
  simp only [IoUringBuf.stored, IoUringBuf.mk.injEq]
  exact ⟨Nat.mod_eq_of_lt h1, Nat.mod_eq_of_lt h2, Nat.mod_eq_of_lt h3⟩

theorem add_tail (br : IoUringBufRing) (addr len bid mask idx : Nat) :
    (shim_buf_ring_add br addr len bid mask idx).tail = br.tail := rfl

theorem add_bufs (br : IoUringBufRing) (addr len bid mask idx i : Nat) :
    (shim_buf_ring_add br addr len bid mask idx).bufs i =
      if i = buf_ring_slot br.tail mask idx then
        { addr := addr % 2 ^ 64, len := len % 2 ^ 32, bid := bid % 2 ^ 16 }
      else br.bufs i := by
  show (if i = buf_ring_slot br.tail mask idx then
        ({ addr := addr % 2 ^ 64 % 2 ^ 64, len := len % 2 ^ 32, bid := bid % 2 ^ 16 } : IoUringBuf)
      else br.bufs i) = _
  rw [Nat.mod_mod]

theorem and_mask_of_lt (x mask n : Nat) (h : mask < 2 ^ n) : (x % 2 ^ n) &&& mask = x &&& mask := by
  apply Nat.eq_of_testBit_eq
  intro i
  rw [Nat.testBit_and, Nat.testBit_and, Nat.testBit_mod_two_pow]
  by_cases hi : i < n
  · simp [hi]
  · have : mask.testBit i = false :=
      Nat.testBit_lt_two_pow (lt_of_lt_of_le h (Nat.pow_le_pow_right (by norm_num) (by omega)))
    simp [this]

theorem slot_eq_and (tail mask idx : Nat) (h : mask < 2 ^ 16) :
    buf_ring_slot tail mask idx = (tail + idx) &&& mask := by
  unfold buf_ring_slot
  rw [Nat.mod_eq_of_lt h, Nat.add_mod_mod, and_mask_of_lt _ _ 32 (lt_trans h (by norm_num))]

theorem pow_mask_lt (k : Nat) (hk : k ≤ 16) : 2 ^ k - 1 < 2 ^ 16 := by
  have h1 : 2 ^ k ≤ 2 ^ 16 := Nat.pow_le_pow_right (by norm_num) hk
  have h2 : 0 < 2 ^ k := Nat.pow_pos (by norm_num)
  omega

theorem slot_eq_mod (tail idx k : Nat) (hk : k ≤ 16) :
    buf_ring_slot tail (2 ^ k - 1) idx = (tail + idx) % 2 ^ k := by
  rw [slot_eq_and _ _ _ (pow_mask_lt k hk), Nat.and_pow_two_sub_one_eq_mod]

theorem consumer_slot_eq_mod (head j k : Nat) (hk : k ≤ 16) :
    ((head + j) % 2 ^ 16) &&& (2 ^ k - 1) = (head + j) % 2 ^ k := by
  rw [Nat.and_pow_two_sub_one_eq_mod, Nat.mod_mod_of_dvd _ (Nat.pow_dvd_pow 2 hk)]

theorem mod_add_inj (a i j e : Nat) (hi : i < e) (hj : j < e)
    (h : (a + i) % e = (a + j) % e) : i = j := by
  have h1 : i ≡ j [MOD e] := Nat.ModEq.add_left_cancel' a h
  have h2 : i % e = j % e := h1
  rwa [Nat.mod_eq_of_lt hi, Nat.mod_eq_of_lt hj] at h2

theorem stage_tail (mask : Nat) (bs : List IoUringBuf) :
    ∀ (br : IoUringBufRing) (idx : Nat), (stage_buffers mask br idx bs).tail = br.tail := by
  induction bs with
  | nil => intro br idx; rfl
  | cons b bs ih =>
    intro br idx
    show (stage_buffers mask (shim_buf_ring_add br b.addr b.len b.bid mask idx) (idx + 1) bs).tail = _
    rw [ih, add_tail]

theorem stage_frame (mask : Nat) (bs : List IoUringBuf) :
    ∀ (br : IoUringBufRing) (idx i : Nat),
      (∀ j, j < bs.length → buf_ring_slot br.tail mask (idx + j) ≠ i) →
      (stage_buffers mask br idx bs).bufs i = br.bufs i := by
  induction bs with
  | nil => intro br idx i _; rfl
  | cons b bs ih =>
    intro br idx i h
    show (stage_buffers mask (shim_buf_ring_add br b.addr b.len b.bid mask idx) (idx + 1) bs).bufs i = _
    rw [ih, add_bufs, if_neg]
    · intro hi
      exact h 0 (by simp) hi.symm
    · intro j hj
      rw [add_tail]
      have := h (j + 1) (by simpa using hj)
      rwa [show idx + (j + 1) = idx + 1 + j by omega] at this

theorem stage_get (mask : Nat) (bs : List IoUringBuf) :
    ∀ (br : IoUringBufRing) (idx : Nat),
      (∀ j1 j2, j1 < bs.length → j2 < bs.length →
        buf_ring_slot br.tail mask (idx + j1) = buf_ring_slot br.tail mask (idx + j2) → j1 = j2) →
      ∀ (j : Nat) (hj : j < bs.length),
        (stage_buffers mask br idx bs).bufs (buf_ring_slot br.tail mask (idx + j))
          = (bs.get ⟨j, hj⟩).stored := by
  induction bs with
  | nil => intro br idx _ j hj; exact absurd hj (by simp)
  | cons b bs ih =>
    intro br idx hinj j hj
    show (stage_buffers mask (shim_buf_ring_add br b.addr b.len b.bid mask idx) (idx + 1) bs).bufs _ = _
    cases j with
    | zero =>
      rw [stage_frame, add_bufs, Nat.add_zero, if_pos rfl]
      · rfl
      · intro j2 hj2 heq
        rw [add_tail, show idx + 1 + j2 = idx + (j2 + 1) by omega] at heq
        have := hinj (j2 + 1) 0 (by simpa using hj2) (by simp) heq
        omega
    | succ j =>
      have hj' : j < bs.length := by simpa using hj
      have := ih (shim_buf_ring_add br b.addr b.len b.bid mask idx) (idx + 1) (by
        intro j1 j2 h1 h2 heq
        rw [add_tail, show idx + 1 + j1 = idx + (j1 + 1) by omega,
          show idx + 1 + j2 = idx + (j2 + 1) by omega] at heq
        have := hinj (j1 + 1) (j2 + 1) (by simpa using h1) (by simpa using h2) heq
        omega) j hj'
      rw [add_tail, show idx + 1 + j = idx + (j + 1) by omega] at this
      rw [this]
      rfl

/-! ### Completion queue -/

theorem cq_advance_khead (ring : IoUring) (c : Nat) (hh : ring.cq.khead < 2 ^ 32) :
    (shim_cq_advance ring c).cq.khead = (ring.cq.khead + c) % 2 ^ 32 := by
  unfold shim_cq_advance io_uring_cq_advance
  by_cases h : c % 2 ^ 32 = 0
  · rw [if_neg (by simpa using h)]
    omega
  · rw [if_pos h]
    show (ring.cq.khead + c % 2 ^ 32) % 2 ^ 32 = _
    omega

theorem cq_advance_frame (ring : IoUring) (c : Nat) :
    (shim_cq_advance ring c).flags = ring.flags ∧
      (shim_cq_advance ring c).cq.ktail = ring.cq.ktail ∧
      (shim_cq_advance ring c).cq.ring_mask = ring.cq.ring_mask ∧
      (shim_cq_advance ring c).cq.cqes = ring.cq.cqes := by
  unfold shim_cq_advance io_uring_cq_advance
  by_cases h : c % 2 ^ 32 = 0
  · rw [if_neg (by simpa using h)]
    exact ⟨rfl, rfl, rfl, rfl⟩
  · rw [if_pos h]
    exact ⟨rfl, rfl, rfl, rfl⟩

theorem peek_length (ring : IoUring) (m : Nat) :
    (shim_peek_batch_cqe ring m).length = min (m % 2 ^ 32) (shim_cq_ready ring) := by
  unfold shim_peek_batch_cqe io_uring_peek_batch_cqe shim_cq_ready
  simp only [List.length_map, List.length_range]
  split_ifs with h <;> omega

theorem peek_getElem (ring : IoUring) (m i : Nat) (hi : i < (shim_peek_batch_cqe ring m).length) :
    (shim_peek_batch_cqe ring m)[i] =
      ring.cq.cqes ((((ring.cq.khead + i) % 2 ^ 32) &&& ring.cq.ring_mask) <<<
        (if ring.flags &&& IORING_SETUP_CQE32 ≠ 0 then 1 else 0)) := by
  unfold shim_peek_batch_cqe io_uring_peek_batch_cqe
  simp only [List.getElem_map, List.getElem_range]

theorem cq_ready_after (ring : IoUring) (count : Nat) (hh : ring.cq.khead < 2 ^ 32)
    (hc : count ≤ shim_cq_ready ring) :
    shim_cq_ready (shim_cq_advance ring count) = shim_cq_ready ring - count := by
  have hk := cq_advance_khead ring count hh
  have hf := (cq_advance_frame ring count).2.1
  unfold shim_cq_ready io_uring_cq_ready at *
  rw [hk, hf]
  omega

/-! ### Conversions and the enter flags -/

theorem setup_bgid_eq (entries bgid : Nat) :
    (shim_setup_buf_ring entries bgid).bgid = bgid % 2 ^ 16 := by
  unfold shim_setup_buf_ring io_uring_setup_buf_ring wrap_s32
  dsimp only
  omega

theorem wrap_s32_of_fits (x : Int) (h : -(2 ^ 31) ≤ x ∧ x < 2 ^ 31) : wrap_s32 x = x := by
  unfold wrap_s32
  omega

theorem or_ext_arg_eq_self_iff (x : Nat) :
    x ||| IORING_ENTER_EXT_ARG = x ↔ x &&& IORING_ENTER_EXT_ARG ≠ 0 := by
  have h8 : IORING_ENTER_EXT_ARG = 2 ^ 3 := rfl
  rw [h8]
  constructor
  · intro h hz
    have h1 : (x ||| 2 ^ 3).testBit 3 = true := by
      rw [Nat.testBit_or, Nat.testBit_two_pow_self, Bool.or_true]
    have h2 : (x &&& 2 ^ 3).testBit 3 = false := by rw [hz]; exact Nat.zero_testBit 3
    rw [h] at h1
    rw [Nat.testBit_and, h1, Nat.testBit_two_pow_self] at h2
    exact absurd h2 (by decide)
  · intro h
    apply Nat.eq_of_testBit_eq
    intro i
    rw [Nat.testBit_or]
    by_cases hi : i = 3
    · subst hi
      have : x.testBit 3 = true := by
        by_contra hc
        apply h
        apply Nat.eq_of_testBit_eq
        intro j
        rw [Nat.testBit_and, Nat.zero_testBit]
        by_cases hj : j = 3
        · subst hj; simp [hc]
        · rw [Nat.testBit_two_pow_of_ne (Ne.symm hj)]; simp
      rw [this]; rfl
    · rw [Nat.testBit_two_pow_of_ne (Ne.symm hi)]; simp

/-! ## Properties of the shim -/

/-- C1: token round trip. For every 64-bit value `t`, after
`shim_sqe_set_data64(sqe, t)` the submission's user-data field holds exactly
`t`, and `shim_cqe_get_data64` of a completion whose user-data field was
copied unmodified from that submission returns exactly `t`. -/
theorem token_round_trip (sqe : IoUringSqe) (cqe : IoUringCqe) (t : Nat) (ht : t < 2 ^ 64) :
    (shim_sqe_set_data64 sqe t).user_data = t ∧
      (cqe.user_data = (shim_sqe_set_data64 sqe t).user_data → shim_cqe_get_data64 cqe = t) := by
  have hset : (shim_sqe_set_data64 sqe t).user_data = t := by
    show t % 2 ^ 64 = t
    exact Nat.mod_eq_of_lt ht
  refine ⟨hset, fun hcopy => ?_⟩
  rw [hset] at hcopy
  show cqe.user_data % 2 ^ 64 = t
  rw [hcopy]
  exact Nat.mod_eq_of_lt ht

/-- C1 at the token with all 64 bits set, stored in a blank submission and
read back from a completion carrying the same user-data. -/
theorem token_round_trip_witness :
    (shim_sqe_set_data64 ⟨0, 0, 0, 0, 0, 0, 0, 0, 0, 0⟩ 18446744073709551615).user_data
        = 18446744073709551615 ∧
      shim_cqe_get_data64 ⟨18446744073709551615, 0, 0⟩ = 18446744073709551615 :=
  have h := token_round_trip ⟨0, 0, 0, 0, 0, 0, 0, 0, 0, 0⟩ ⟨18446744073709551615, 0, 0⟩
    18446744073709551615 (by norm_num)
  ⟨h.1, h.2 h.1.symm⟩

/-- C2: buffer-id round trip. For every buffer id `bid < 65536` and every
value `f` of the low 16 flag bits, `shim_cqe_buffer_id` of a completion whose
flags word is `(bid << 16) | f` is `bid`; it is the same for every other value
of the low 16 bits; it is below 65536 (as it is for every 32-bit flags word);
and handed to `shim_buf_ring_add` as `bid` it is stored in the slot unchanged. -/
theorem buffer_id_round_trip (cqe : IoUringCqe) (bid f : Nat) (hbid : bid < 65536)
    (hf : f < 65536) (hflags : cqe.flags = (bid <<< 16) ||| f) :
    shim_cqe_buffer_id cqe = bid ∧
      (∀ f2, f2 < 65536 →
        shim_cqe_buffer_id { cqe with flags := (bid <<< 16) ||| f2 } = shim_cqe_buffer_id cqe) ∧
      shim_cqe_buffer_id cqe < 65536 ∧
      (∀ c : IoUringCqe, c.flags < 2 ^ 32 → shim_cqe_buffer_id c < 65536) ∧
      (∀ (br : IoUringBufRing) (addr len mask idx : Nat),
        ((shim_buf_ring_add br addr len (shim_cqe_buffer_id cqe) mask idx).bufs
          (buf_ring_slot br.tail mask idx)).bid = bid) := by
  have hid : shim_cqe_buffer_id cqe = bid := by
    unfold shim_cqe_buffer_id IORING_CQE_BUFFER_SHIFT
    rw [hflags]
    exact shiftLeft_or_shiftRight bid f 16 (by norm_num; exact hf)
  refine ⟨hid, ?_, by rw [hid]; exact hbid, ?_, ?_⟩
  · intro f2 hf2
    rw [hid]
    unfold shim_cqe_buffer_id IORING_CQE_BUFFER_SHIFT
    exact shiftLeft_or_shiftRight bid f2 16 (by norm_num; exact hf2)
  · intro c hc
    unfold shim_cqe_buffer_id IORING_CQE_BUFFER_SHIFT
    rw [Nat.shiftRight_eq_div_pow]
    omega
  · intro br addr len mask idx
    rw [hid]
    simp [shim_buf_ring_add, io_uring_buf_ring_add, buf_ring_slot, Nat.mod_eq_of_lt hbid]

/-- C2 at buffer id 65535 with all low flag bits set (flags word `0xFFFFFFFF`). -/
theorem buffer_id_round_trip_witness :
    shim_cqe_buffer_id ⟨0, 0, 4294967295⟩ = 65535 :=
  (buffer_id_round_trip ⟨0, 0, 4294967295⟩ 65535 65535 (by norm_num) (by norm_num)
    (by decide)).1

/-- C3: `shim_cqe_has_buffer` is 1 when bit 0 (`IORING_CQE_F_BUFFER`) of the
flags word is set and 0 otherwise; any two flags words that agree on bit 0
give the same result, in particular two that differ only in bits 1..31 or
only in the buffer-id bits 16..31. -/
theorem has_buffer_is_bit0 (cqe : IoUringCqe) :
    shim_cqe_has_buffer cqe = (if cqe.flags.testBit 0 then 1 else 0) ∧
      (∀ other : IoUringCqe, other.flags.testBit 0 = cqe.flags.testBit 0 →
        shim_cqe_has_buffer other = shim_cqe_has_buffer cqe) ∧
      (∀ m : Nat,
        shim_cqe_has_buffer { cqe with flags := cqe.flags ^^^ (m <<< 1) }
          = shim_cqe_has_buffer cqe) ∧
      (∀ bid : Nat,
        shim_cqe_has_buffer { cqe with flags := cqe.flags ^^^ (bid <<< 16) }
          = shim_cqe_has_buffer cqe) := by
  refine ⟨has_buffer_eq cqe, ?_, ?_, ?_⟩
  · intro other h
    rw [has_buffer_eq, has_buffer_eq, h]
  · intro m
    rw [has_buffer_eq, has_buffer_eq]
    show (if (cqe.flags ^^^ (m <<< (0 + 1))).testBit 0 then (1 : Int) else 0) = _
    rw [testBit_zero_xor_shiftLeft]
  · intro bid
    rw [has_buffer_eq, has_buffer_eq]
    show (if (cqe.flags ^^^ (bid <<< (15 + 1))).testBit 0 then (1 : Int) else 0) = _
    rw [testBit_zero_xor_shiftLeft]

/-- C4: staged buffers become visible exactly, once each and in order. On a
buffer ring of `2 ^ k` entries (`k ≤ 16`, so that `mask = entries - 1` fits the
`unsigned short` parameter), when `n ≤ entries` buffers are added with
`shim_buf_ring_add` at logical indices `0 .. n-1` and
`shim_buf_ring_advance(br, n)` is called, the tail moves from `tail` to
`(tail + n) mod 2^16`, and the `n` slots the consumer reads from the old
tail to the new one are the added buffers: the same list, so the same ids with
the same address and length, in the same order and with the same multiplicity. -/
theorem staged_batch_visible (k : Nat) (hk : k ≤ 16) (br : IoUringBufRing)
    (bufs : List IoUringBuf) (hwf : ∀ b ∈ bufs, b.wf) (hn : bufs.length ≤ 2 ^ k) :
    (shim_buf_ring_advance (stage_buffers (2 ^ k - 1) br 0 bufs) bufs.length).tail
        = (br.tail + bufs.length) % 2 ^ 16 ∧
      consumer_view (shim_buf_ring_advance (stage_buffers (2 ^ k - 1) br 0 bufs) bufs.length)
        (2 ^ k - 1) br.tail bufs.length = bufs := by
  constructor
  · show ((stage_buffers (2 ^ k - 1) br 0 bufs).tail + bufs.length % 2 ^ 32) % 2 ^ 16 = _
    rw [stage_tail, Nat.add_mod, Nat.mod_mod_of_dvd _ (Nat.pow_dvd_pow 2 (by norm_num : 16 ≤ 32)),
      ← Nat.add_mod]
  · apply List.ext_getElem
    · simp [consumer_view]
    · intro j h1 h2
      have hget := stage_get (2 ^ k - 1) bufs br 0 (by
        intro j1 j2 hj1 hj2 heq
        rw [slot_eq_mod _ _ _ hk, slot_eq_mod _ _ _ hk, Nat.zero_add, Nat.zero_add] at heq
        exact mod_add_inj br.tail j1 j2 (2 ^ k) (by omega) (by omega) heq) j h2
      rw [slot_eq_mod _ _ _ hk, Nat.zero_add] at hget
      simp only [consumer_view, List.getElem_map, List.getElem_range]
      rw [consumer_slot_eq_mod _ _ _ hk]
      show (stage_buffers (2 ^ k - 1) br 0 bufs).bufs _ = _
      rw [hget, stored_of_wf _ (hwf _ (List.get_mem _ _ _))]
      rfl

/-- C4 on a ring of 4 entries whose tail is 65535: three buffers with ids 7, 8, 9
are staged and published; the tail wraps to 2 and the consumer reads exactly
those three, in order, from slots 3, 0, 1. -/
theorem staged_batch_visible_witness :
    (shim_buf_ring_advance
        (stage_buffers (2 ^ 2 - 1) buf_ring_at_wrap 0 [⟨4096, 512, 7⟩, ⟨8192, 512, 8⟩, ⟨12288, 256, 9⟩])
        3).tail = (65535 + 3) % 2 ^ 16 ∧
      consumer_view
        (shim_buf_ring_advance
          (stage_buffers (2 ^ 2 - 1) buf_ring_at_wrap 0 [⟨4096, 512, 7⟩, ⟨8192, 512, 8⟩, ⟨12288, 256, 9⟩])
          3)
        (2 ^ 2 - 1) 65535 3 = [⟨4096, 512, 7⟩, ⟨8192, 512, 8⟩, ⟨12288, 256, 9⟩] :=
  staged_batch_visible 2 (by norm_num) buf_ring_at_wrap
    [⟨4096, 512, 7⟩, ⟨8192, 512, 8⟩, ⟨12288, 256, 9⟩]
    (by
      intro b hb
      simp only [List.mem_cons, List.mem_singleton, List.not_mem_nil, or_false] at hb
      rcases hb with rfl | rfl | rfl <;> (unfold IoUringBuf.wf; norm_num))
    (by norm_num)

/-- C5: `shim_buf_ring_add` stages without publishing. For every ring state and
every `addr`, `len`, `bid`, `idx` and every `unsigned short` `mask`, the call
leaves the tail unchanged, leaves every slot other than `(tail + idx) & mask`
unchanged, and writes the converted `addr`, `len`, `bid` to that slot;
`shim_buf_ring_advance(br, count)` sets the tail to `(tail + count) mod 2^16`
and changes no slot. -/
theorem add_stages_advance_publishes (br : IoUringBufRing) (addr len bid mask idx count : Nat)
    (hmask : mask < 2 ^ 16) :
    (shim_buf_ring_add br addr len bid mask idx).tail = br.tail ∧
      (∀ i, i ≠ (br.tail + idx) &&& mask →
        (shim_buf_ring_add br addr len bid mask idx).bufs i = br.bufs i) ∧
      (shim_buf_ring_add br addr len bid mask idx).bufs ((br.tail + idx) &&& mask)
        = { addr := addr % 2 ^ 64, len := len % 2 ^ 32, bid := bid % 2 ^ 16 } ∧
      (shim_buf_ring_advance br count).tail = (br.tail + count) % 2 ^ 16 ∧
      (shim_buf_ring_advance br count).bufs = br.bufs := by
  refine ⟨rfl, ?_, ?_, ?_, rfl⟩
  · intro i hi
    rw [add_bufs, slot_eq_and _ _ _ hmask, if_neg hi]
  · rw [add_bufs, slot_eq_and _ _ _ hmask, if_pos rfl]
  · show (br.tail + count % 2 ^ 32) % 2 ^ 16 = _
    rw [Nat.add_mod, Nat.mod_mod_of_dvd _ (Nat.pow_dvd_pow 2 (by norm_num : 16 ≤ 32)),
      ← Nat.add_mod]

/-- C5 on the ring whose tail is 65535, with mask 3 and logical index 2: the add
writes slot `(65535 + 2) & 3 = 1` only, and advancing by 3 wraps the tail to 2. -/
theorem add_stages_advance_publishes_witness :
    (shim_buf_ring_add buf_ring_at_wrap 4096 512 7 3 2).tail = 65535 ∧
      (shim_buf_ring_add buf_ring_at_wrap 4096 512 7 3 2).bufs 1 = ⟨4096, 512, 7⟩ ∧
      (shim_buf_ring_add buf_ring_at_wrap 4096 512 7 3 2).bufs 0 = ⟨0, 0, 0⟩ ∧
      (shim_buf_ring_advance buf_ring_at_wrap 3).tail = 2 :=
  have h := add_stages_advance_publishes buf_ring_at_wrap 4096 512 7 3 2 3 (by norm_num)
  ⟨h.1, h.2.2.1, h.2.1 0 (by decide), h.2.2.2.1⟩

/-- C6, amended: `shim_cq_advance` moves the completion cursor by `count` and
checks nothing. For every ring with `r` ready completions and every
`count ≤ r`, `r - count` completions are ready afterwards and a peek afterwards
returns what a peek before returned from position `count` on; and for every
`count`, also one above `r`, the head becomes `(head + count) mod 2^32`: the
call has no failure result. -/
theorem cq_advance_consumes (ring : IoUring) (count : Nat) (hh : ring.cq.khead < 2 ^ 32)
    (hc : count ≤ shim_cq_ready ring) :
    shim_cq_ready (shim_cq_advance ring count) = shim_cq_ready ring - count ∧
      (∀ m, count + m < 2 ^ 32 →
        shim_peek_batch_cqe (shim_cq_advance ring count) m
          = (shim_peek_batch_cqe ring (count + m)).drop count) ∧
      (∀ c, (shim_cq_advance ring c).cq.khead = (ring.cq.khead + c) % 2 ^ 32) := by
  have hready := cq_ready_after ring count hh hc
  refine ⟨hready, ?_, fun c => cq_advance_khead ring c hh⟩
  intro m hm
  have hlt : shim_cq_ready ring < 2 ^ 32 := by
    unfold shim_cq_ready io_uring_cq_ready; omega
  apply List.ext_getElem
  · rw [List.length_drop, peek_length, peek_length, hready]
    omega
  · intro i h1 h2
    rw [peek_getElem, List.getElem_drop, peek_getElem]
    obtain ⟨hfl, _, hmask, hcq⟩ := cq_advance_frame ring count
    rw [hfl, hmask, hcq, cq_advance_khead ring count hh]
    have : ((ring.cq.khead + count) % 2 ^ 32 + i) % 2 ^ 32
        = (ring.cq.khead + (count + i)) % 2 ^ 32 := by omega
    rw [this]

/-- C6, amended, on the ring with three completions ready across the cursor
wrap: consuming two leaves one ready, and the next peek returns the one that was
third. -/
theorem cq_advance_consumes_witness :
    shim_cq_ready (shim_cq_advance ring_three_ready 2) = shim_cq_ready ring_three_ready - 2 ∧
      shim_peek_batch_cqe (shim_cq_advance ring_three_ready 2) 1
        = (shim_peek_batch_cqe ring_three_ready (2 + 1)).drop 2 :=
  have h := cq_advance_consumes ring_three_ready 2 (by decide) (by decide)
  ⟨h.1, h.2.1 1 (by norm_num)⟩

/-- C6 as stated fails: on the ring with one completion ready,
`shim_cq_advance(ring, 2)` consumes more than is ready and does not fail; it
moves the head from 0 to 2, past the tail, after which `shim_cq_ready` reports
`2^32 - 1` completions. -/
theorem cq_advance_overrun_counterexample :
    shim_cq_ready ring_one_ready = 1 ∧
      (shim_cq_advance ring_one_ready 2).cq.khead = 2 ∧
      (shim_cq_advance ring_one_ready 2).cq.khead ≠ ring_one_ready.cq.khead ∧
      shim_cq_ready (shim_cq_advance ring_one_ready 2) = 4294967295 := by
  decide

/-- C7: ring creation reports failure synchronously and consistently. For
`shim_create_ring_ex` and `shim_create_ring` called with a non-null `err_out`:
`*err_out` is written; the returned ring is `NULL` exactly when `*err_out` is
negative and non-`NULL` exactly when `*err_out` is 0; when `malloc` fails
`*err_out` is -12 and the result is `NULL`; when the kernel initialisation
returns `rc < 0` the result is `NULL` and `*err_out` is `rc`. -/
theorem create_ring_reports_failure (env : Env) (w : World) (entries flags : Nat)
    (sq_thread_cpu : Int) (sq_thread_idle_ms : Nat) (v : Int) :
    (∃ e, (shim_create_ring_ex env w entries flags sq_thread_cpu sq_thread_idle_ms (some v)).err_out
          = some e ∧
        ((shim_create_ring_ex env w entries flags sq_thread_cpu sq_thread_idle_ms (some v)).ret = none
          ↔ e < 0) ∧
        ((shim_create_ring_ex env w entries flags sq_thread_cpu sq_thread_idle_ms (some v)).ret ≠ none
          ↔ e = 0) ∧
        (env.malloc = none →
          (shim_create_ring_ex env w entries flags sq_thread_cpu sq_thread_idle_ms (some v)).ret = none
            ∧ e = -12) ∧
        (env.malloc ≠ none →
          env.io_uring_queue_init_params (entries % 2 ^ 32)
            (shim_create_ring_ex_params (flags % 2 ^ 32) sq_thread_cpu (sq_thread_idle_ms % 2 ^ 32)) < 0 →
          (shim_create_ring_ex env w entries flags sq_thread_cpu sq_thread_idle_ms (some v)).ret = none
            ∧ e = env.io_uring_queue_init_params (entries % 2 ^ 32)
              (shim_create_ring_ex_params (flags % 2 ^ 32) sq_thread_cpu
                (sq_thread_idle_ms % 2 ^ 32)))) ∧
      (∃ e, (shim_create_ring env w entries (some v)).err_out = some e ∧
        ((shim_create_ring env w entries (some v)).ret = none ↔ e < 0) ∧
        ((shim_create_ring env w entries (some v)).ret ≠ none ↔ e = 0) ∧
        (env.malloc = none → (shim_create_ring env w entries (some v)).ret = none ∧ e = -12) ∧
        (env.malloc ≠ none → env.io_uring_queue_init (entries % 2 ^ 32) 0 < 0 →
          (shim_create_ring env w entries (some v)).ret = none
            ∧ e = env.io_uring_queue_init (entries % 2 ^ 32) 0)) := by
  constructor
  · unfold shim_create_ring_ex
    cases hm : env.malloc with
    | none =>
      exact ⟨-12, rfl, ⟨fun _ => by norm_num, fun _ => rfl⟩,
        ⟨fun h => absurd rfl h, fun h => absurd h (by norm_num)⟩,
        fun _ => ⟨rfl, rfl⟩, fun h => absurd rfl h⟩
    | some ring =>
      dsimp only
      by_cases hrc : env.io_uring_queue_init_params (entries % 2 ^ 32)
          (shim_create_ring_ex_params (flags % 2 ^ 32) sq_thread_cpu (sq_thread_idle_ms % 2 ^ 32)) < 0
      · rw [if_pos hrc]
        exact ⟨env.io_uring_queue_init_params (entries % 2 ^ 32)
            (shim_create_ring_ex_params (flags % 2 ^ 32) sq_thread_cpu
              (sq_thread_idle_ms % 2 ^ 32)), rfl, ⟨fun _ => hrc, fun _ => rfl⟩,
          ⟨fun h => absurd rfl h, fun h => absurd hrc (by rw [h]; norm_num)⟩,
          fun h => Option.noConfusion h, fun _ _ => ⟨rfl, rfl⟩⟩
      · rw [if_neg hrc]
        exact ⟨0, rfl, ⟨fun h => Option.noConfusion h, fun h => absurd h (by norm_num)⟩,
          ⟨fun _ => rfl, fun _ h => Option.noConfusion h⟩,
          fun h => Option.noConfusion h, fun _ h => absurd h hrc⟩
  · unfold shim_create_ring
    cases hm : env.malloc with
    | none =>
      exact ⟨-12, rfl, ⟨fun _ => by norm_num, fun _ => rfl⟩,
        ⟨fun h => absurd rfl h, fun h => absurd h (by norm_num)⟩,
        fun _ => ⟨rfl, rfl⟩, fun h => absurd rfl h⟩
    | some ring =>
      dsimp only
      by_cases hrc : env.io_uring_queue_init (entries % 2 ^ 32) 0 < 0
      · rw [if_pos hrc]
        exact ⟨env.io_uring_queue_init (entries % 2 ^ 32) 0, rfl, ⟨fun _ => hrc, fun _ => rfl⟩,
          ⟨fun h => absurd rfl h, fun h => absurd hrc (by rw [h]; norm_num)⟩,
          fun h => Option.noConfusion h, fun _ _ => ⟨rfl, rfl⟩⟩
      · rw [if_neg hrc]
        exact ⟨0, rfl, ⟨fun h => Option.noConfusion h, fun h => absurd h (by norm_num)⟩,
          ⟨fun _ => rfl, fun _ h => Option.noConfusion h⟩,
          fun h => Option.noConfusion h, fun _ h => absurd h hrc⟩

/-- C7 where the kernel rejects the configuration with -1: both creators return
`NULL` and leave -1 in `*err_out`, which held 77 before the call. -/
theorem create_ring_reports_failure_witness :
    (shim_create_ring_ex env_rejecting world_empty 256 6 0 1000 (some 77)).ret = none ∧
      (shim_create_ring_ex env_rejecting world_empty 256 6 0 1000 (some 77)).err_out = some (-1) ∧
      (shim_create_ring env_rejecting world_empty 256 (some 77)).ret = none ∧
      (shim_create_ring env_rejecting world_empty 256 (some 77)).err_out = some (-1) := by
  obtain ⟨⟨e1, he1, _, _, _, hk1⟩, ⟨e2, he2, _, _, _, hk2⟩⟩ :=
    create_ring_reports_failure env_rejecting world_empty 256 6 0 1000 77
  have h1 := hk1 (by decide) (by decide)
  have h2 := hk2 (by decide) (by decide)
  refine ⟨h1.1, ?_, h2.1, ?_⟩
  · rw [he1, h1.2]; rfl
  · rw [he2, h2.2]; rfl

/-- C8: the parameter block `shim_create_ring_ex` hands to the kernel. For
every `unsigned` `flags`, `int` `sq_thread_cpu` and `unsigned`
`sq_thread_idle_ms`: `p.flags` is `flags`; `p.sq_thread_idle` is
`sq_thread_idle_ms` when `IORING_SETUP_SQPOLL` is in `flags`, else 0;
`p.sq_thread_cpu` is `sq_thread_cpu` when `IORING_SETUP_SQPOLL` and
`IORING_SETUP_SQ_AFF` are both in `flags` and `sq_thread_cpu ≥ 0`, else 0; every
other field is 0. Without `IORING_SETUP_SQPOLL` the block is the same for every
cpu and idle argument. This block is the one passed to
`io_uring_queue_init_params`, right after `malloc`. -/
theorem create_ring_ex_params_spec (flags : Nat) (sq_thread_cpu : Int) (sq_thread_idle_ms : Nat)
    (hflags : flags < 2 ^ 32) (hcpu : sq_thread_cpu < 2 ^ 31) (hidle : sq_thread_idle_ms < 2 ^ 32) :
    shim_create_ring_ex_params flags sq_thread_cpu sq_thread_idle_ms =
        { IoUringParams.zeroed with
          flags := flags
          sq_thread_idle := if flags &&& IORING_SETUP_SQPOLL ≠ 0 then sq_thread_idle_ms else 0
          sq_thread_cpu :=
            if flags &&& IORING_SETUP_SQPOLL ≠ 0 ∧ flags &&& IORING_SETUP_SQ_AFF ≠ 0
                ∧ sq_thread_cpu ≥ 0 then sq_thread_cpu.toNat else 0 } ∧
      (flags &&& IORING_SETUP_SQPOLL = 0 → ∀ (cpu2 : Int) (idle2 : Nat),
        shim_create_ring_ex_params flags cpu2 idle2
          = shim_create_ring_ex_params flags sq_thread_cpu sq_thread_idle_ms) ∧
      (∀ (env : Env) (w : World) (entries : Nat) (err_out : Option Int) (ring : Nat),
        env.malloc = some ring →
        (shim_create_ring_ex env w entries flags sq_thread_cpu sq_thread_idle_ms err_out).world.calls
          = w.calls ++ LibCall.malloc ::
              LibCall.queue_init_params (entries % 2 ^ 32) ring
                (shim_create_ring_ex_params flags sq_thread_cpu sq_thread_idle_ms) ::
              (if env.io_uring_queue_init_params (entries % 2 ^ 32)
                    (shim_create_ring_ex_params flags sq_thread_cpu sq_thread_idle_ms) < 0
                then [LibCall.free ring] else [])) := by
  refine ⟨?_, ?_, ?_⟩
  · unfold shim_create_ring_ex_params
    by_cases hp : flags &&& IORING_SETUP_SQPOLL ≠ 0
    · by_cases ha : flags &&& IORING_SETUP_SQ_AFF ≠ 0 ∧ sq_thread_cpu ≥ 0
      · have hmod : sq_thread_cpu.toNat % 2 ^ 32 = sq_thread_cpu.toNat := by
          apply Nat.mod_eq_of_lt
          omega
        rw [if_pos hp, if_pos ha, if_pos hp, if_pos ⟨hp, ha⟩, hmod]
      · have hn : ¬ (flags &&& IORING_SETUP_SQPOLL ≠ 0 ∧ flags &&& IORING_SETUP_SQ_AFF ≠ 0
            ∧ sq_thread_cpu ≥ 0) := fun h => ha h.2
        rw [if_pos hp, if_neg ha, if_pos hp, if_neg hn]
        rfl
    · have hn : ¬ (flags &&& IORING_SETUP_SQPOLL ≠ 0 ∧ flags &&& IORING_SETUP_SQ_AFF ≠ 0
          ∧ sq_thread_cpu ≥ 0) := fun h => hp h.1
      rw [if_neg hp, if_neg hp, if_neg hn]
      rfl
  · intro h0 cpu2 idle2
    have hp : ¬ (flags &&& IORING_SETUP_SQPOLL ≠ 0) := fun h => h h0
    unfold shim_create_ring_ex_params
    rw [if_neg hp, if_neg hp]
  · intro env w entries err_out ring hm
    unfold shim_create_ring_ex
    rw [hm, Nat.mod_eq_of_lt hflags, Nat.mod_eq_of_lt hidle]
    dsimp only
    by_cases hrc : env.io_uring_queue_init_params (entries % 2 ^ 32)
        (shim_create_ring_ex_params flags sq_thread_cpu sq_thread_idle_ms) < 0
    · rw [if_pos hrc, if_pos hrc]
    · rw [if_neg hrc, if_neg hrc]

/-- C8 at `flags = SQPOLL | SQ_AFF`, cpu 3, idle 1000 ms: the block carries
flags 6, cpu 3, idle 1000 and zeros elsewhere. -/
theorem create_ring_ex_params_spec_witness :
    shim_create_ring_ex_params 6 3 1000 =
      { IoUringParams.zeroed with flags := 6, sq_thread_idle := 1000, sq_thread_cpu := 3 } :=
  (create_ring_ex_params_spec 6 3 1000 (by norm_num) (by norm_num) (by norm_num)).1.trans
    (by decide)

/-- C9 at the failing input `flags = SQPOLL | SQ_AFF`, `sq_thread_cpu = -1`: the
block handed to the kernel still carries `IORING_SETUP_SQ_AFF`, with
`sq_thread_cpu = 0`; it is the block an explicit request for CPU 0 builds, and
it is not the block built from the same flags with `SQ_AFF` cleared. -/
theorem create_ring_ex_minus_one_keeps_sq_aff :
    (shim_create_ring_ex_params 6 (-1) 1000).flags &&& IORING_SETUP_SQ_AFF ≠ 0 ∧
      (shim_create_ring_ex_params 6 (-1) 1000).sq_thread_cpu = 0 ∧
      shim_create_ring_ex_params 6 (-1) 1000 = shim_create_ring_ex_params 6 0 1000 ∧
      shim_create_ring_ex_params 6 (-1) 1000 ≠ shim_create_ring_ex_params 2 (-1) 1000 := by
  decide

/-- C10, amended: `shim_destroy_ring` is a no-op for `NULL` only. Called with
`NULL` it makes no call and changes nothing; called with a non-null pointer it
makes one `io_uring_queue_exit` and one `free` on that pointer, whatever was
destroyed before, so a second call on the same pointer is never without
effect. -/
theorem destroy_ring_null_noop (w : World) :
    shim_destroy_ring none w = w ∧
      ∀ r : Nat,
        (shim_destroy_ring (some r) w).calls
            = w.calls ++ [LibCall.queue_exit r, LibCall.free r] ∧
          (shim_destroy_ring (some r) w).live = w.live.erase r ∧
          shim_destroy_ring (some r) (shim_destroy_ring (some r) w)
            ≠ shim_destroy_ring (some r) w := by
  refine ⟨rfl, fun r => ⟨rfl, rfl, ?_⟩⟩
  intro h
  have hlen := congrArg (fun x => x.calls.length) h
  simp [shim_destroy_ring] at hlen

/-- C10 as stated fails: in the world where ring 1 is allocated, the first
`shim_destroy_ring` frees it (it is no longer live), and a second call on the
same pointer tears down and frees again, so destroy twice is not destroy once. -/
theorem destroy_ring_twice_counterexample :
    1 ∉ (shim_destroy_ring (some 1) world_one_ring).live ∧
      (shim_destroy_ring (some 1) (shim_destroy_ring (some 1) world_one_ring)).calls
        = [LibCall.malloc, LibCall.queue_init 8 1 0, LibCall.queue_exit 1, LibCall.free 1,
            LibCall.queue_exit 1, LibCall.free 1] ∧
      shim_destroy_ring (some 1) (shim_destroy_ring (some 1) world_one_ring)
        ≠ shim_destroy_ring (some 1) world_one_ring := by
  decide

/-- C11: `shim_get_ring_flags` is read-only introspection. For a null ring it
returns 0; for every non-null ring it returns the ring's stored setup flags
word (it has no other input: two rings with the same stored flags give the same
result), and the ring is afterwards what it was before: every field unchanged. -/
theorem get_ring_flags_reads_only (ring : IoUring) :
    (shim_get_ring_flags none).1 = 0 ∧
      (shim_get_ring_flags none).2 = none ∧
      (shim_get_ring_flags (some ring)).1 = ring.flags ∧
      (shim_get_ring_flags (some ring)).2 = some ring ∧
      (∀ other : IoUring, other.flags = ring.flags →
        (shim_get_ring_flags (some other)).1 = (shim_get_ring_flags (some ring)).1) :=
  ⟨rfl, rfl, rfl, rfl, fun _ h => h⟩

/-- C12: the millisecond-to-timespec conversion of `shim_wait_cqe_timeout_in` is
exact. For every `timeout_ms ≥ 0` of a 64-bit `long`: `tv_sec` is
`timeout_ms / 1000`, `tv_nsec` is `(timeout_ms mod 1000) * 1000000`,
`tv_sec * 10^9 + tv_nsec = timeout_ms * 10^6`, `0 ≤ tv_nsec < 10^9`, the
intermediate quotient, remainder and product all lie in the signed 64-bit range
(nothing wraps), and this timespec is the one handed to the wait. -/
theorem timeout_ms_to_timespec (timeout_ms : Int) (h0 : 0 ≤ timeout_ms)
    (h64 : timeout_ms < 2 ^ 63) :
    (shim_wait_cqe_timeout_in_ts timeout_ms).tv_sec = timeout_ms / 1000 ∧
      (shim_wait_cqe_timeout_in_ts timeout_ms).tv_nsec = (timeout_ms % 1000) * 1000000 ∧
      (shim_wait_cqe_timeout_in_ts timeout_ms).tv_sec * 1000000000
          + (shim_wait_cqe_timeout_in_ts timeout_ms).tv_nsec = timeout_ms * 1000000 ∧
      0 ≤ (shim_wait_cqe_timeout_in_ts timeout_ms).tv_nsec ∧
      (shim_wait_cqe_timeout_in_ts timeout_ms).tv_nsec < 1000000000 ∧
      (-(2 ^ 63) ≤ Int.tdiv timeout_ms 1000 ∧ Int.tdiv timeout_ms 1000 < 2 ^ 63) ∧
      (-(2 ^ 63) ≤ Int.tmod timeout_ms 1000 ∧ Int.tmod timeout_ms 1000 < 2 ^ 63) ∧
      (-(2 ^ 63) ≤ Int.tmod timeout_ms 1000 * 1000000
        ∧ Int.tmod timeout_ms 1000 * 1000000 < 2 ^ 63) ∧
      (∀ wait : KernelTimespec → Int,
        shim_wait_cqe_timeout_in wait timeout_ms
          = wait { tv_sec := timeout_ms / 1000, tv_nsec := (timeout_ms % 1000) * 1000000 }) := by
  have hd : Int.tdiv timeout_ms 1000 = timeout_ms / 1000 :=
    Int.tdiv_eq_ediv h0 (by norm_num)
  have hm : Int.tmod timeout_ms 1000 = timeout_ms % 1000 :=
    Int.tmod_eq_emod h0 (by norm_num)
  have hsec : (shim_wait_cqe_timeout_in_ts timeout_ms).tv_sec = timeout_ms / 1000 := by
    show wrap_s64 (Int.tdiv timeout_ms 1000) = _
    rw [hd]
    unfold wrap_s64
    omega
  have hnsec : (shim_wait_cqe_timeout_in_ts timeout_ms).tv_nsec
      = (timeout_ms % 1000) * 1000000 := by
    show wrap_s64 (wrap_s64 (Int.tmod timeout_ms 1000) * 1000000) = _
    rw [hm]
    unfold wrap_s64
    omega
  have hself : wrap_s64 timeout_ms = timeout_ms := by
    unfold wrap_s64
    omega
  refine ⟨hsec, hnsec, ?_, ?_, ?_, ?_, ?_, ?_, ?_⟩
  · rw [hsec, hnsec]; omega
  · rw [hnsec]; omega
  · rw [hnsec]; omega
  · rw [hd]; omega
  · rw [hm]; omega
  · rw [hm]; omega
  · intro wait
    show wait (shim_wait_cqe_timeout_in_ts (wrap_s64 timeout_ms)) = _
    rw [hself]
    congr 1
    cases hts : shim_wait_cqe_timeout_in_ts timeout_ms with
    | mk s n =>
      rw [hts] at hsec hnsec
      simp only at hsec hnsec
      rw [hsec, hnsec]

/-- C12 at the largest `long`, `2^63 - 1` ms: 9223372036854775 s and
807000000 ns. -/
theorem timeout_ms_to_timespec_witness :
    (shim_wait_cqe_timeout_in_ts 9223372036854775807).tv_sec = 9223372036854775 ∧
      (shim_wait_cqe_timeout_in_ts 9223372036854775807).tv_nsec = 807000000 :=
  have h := timeout_ms_to_timespec 9223372036854775807 (by norm_num) (by norm_num)
  ⟨h.1.trans (by norm_num), h.2.1.trans (by norm_num)⟩

/-- C13: mask-based indexing stays inside the buffer ring. For every
power-of-two entry count `2 ^ k` with `k ≤ 16` (1 to 65536 entries),
`mask = entries - 1`, every tail and every logical `idx`: the slot index
`shim_buf_ring_add` uses is `(tail + idx) & mask`, is below `entries`, and is
`(tail + idx) mod entries`; for `idx` from 0 to `entries - 1` the slot indices
are pairwise distinct; and the call writes no slot at or beyond `entries`. -/
theorem mask_index_in_ring (k : Nat) (hk : k ≤ 16) (tail idx : Nat) :
    buf_ring_slot tail (2 ^ k - 1) idx = (tail + idx) &&& (2 ^ k - 1) ∧
      buf_ring_slot tail (2 ^ k - 1) idx < 2 ^ k ∧
      buf_ring_slot tail (2 ^ k - 1) idx = (tail + idx) % 2 ^ k ∧
      (∀ i j, i < 2 ^ k → j < 2 ^ k →
        buf_ring_slot tail (2 ^ k - 1) i = buf_ring_slot tail (2 ^ k - 1) j → i = j) ∧
      (∀ (br : IoUringBufRing) (addr len bid slot : Nat),
        (shim_buf_ring_add br addr len bid (2 ^ k - 1) idx).bufs slot ≠ br.bufs slot →
          slot = (br.tail + idx) % 2 ^ k ∧ slot < 2 ^ k) := by
  have hpos : 0 < 2 ^ k := Nat.pow_pos (by norm_num)
  refine ⟨slot_eq_and _ _ _ (pow_mask_lt k hk), ?_, slot_eq_mod _ _ _ hk, ?_, ?_⟩
  · rw [slot_eq_mod _ _ _ hk]
    exact Nat.mod_lt _ hpos
  · intro i j hi hj h
    rw [slot_eq_mod _ _ _ hk, slot_eq_mod _ _ _ hk] at h
    exact mod_add_inj tail i j (2 ^ k) hi hj h
  · intro br addr len bid slot hne
    rw [add_bufs, slot_eq_mod _ _ _ hk] at hne
    by_cases hs : slot = (br.tail + idx) % 2 ^ k
    · exact ⟨hs, by rw [hs]; exact Nat.mod_lt _ hpos⟩
    · rw [if_neg hs] at hne
      exact absurd rfl hne

/-- C13 on a ring of 4 entries with tail 65535 and logical index 2: the slot is
`(65535 + 2) mod 4 = 1`, inside the ring. -/
theorem mask_index_in_ring_witness :
    buf_ring_slot 65535 (2 ^ 2 - 1) 2 = (65535 + 2) % 2 ^ 2 ∧
      buf_ring_slot 65535 (2 ^ 2 - 1) 2 < 2 ^ 2 :=
  have h := mask_index_in_ring 2 (by norm_num) 65535 2
  ⟨h.2.2.1, h.2.1⟩

/-- C11 on the ring with one completion ready, whose stored flags are 0. -/
theorem get_ring_flags_reads_only_witness :
    (shim_get_ring_flags (some ring_one_ready)).1 = 0 ∧
      (shim_get_ring_flags (some ring_one_ready)).2 = some ring_one_ready :=
  have h := get_ring_flags_reads_only ring_one_ready
  ⟨h.2.2.1, h.2.2.2.1⟩

/-- C14, amended: `shim_prep_recv_multishot_select` records the caller's buffer
group in the 16-bit field of the entry. For every `unsigned` `buf_group` the
field is `buf_group mod 65536`, so it is `buf_group` whenever
`buf_group < 65536`; it is the group id `shim_setup_buf_ring` registers for the
same value as `bgid`; the entry's flags are those of the multishot-receive
preparation with `IOSQE_BUFFER_SELECT` set in addition (the preparation leaves
them 0); the entry carries no buffer (address 0, length 0); and every other
field is as the preparation left it. -/
theorem recv_select_records_group (sqe : IoUringSqe) (fd : Int) (buf_group : Nat)
    (flags : Int) (entries : Nat) :
    (shim_prep_recv_multishot_select sqe fd buf_group flags).buf_group = buf_group % 65536 ∧
      (buf_group < 65536 →
        (shim_prep_recv_multishot_select sqe fd buf_group flags).buf_group = buf_group) ∧
      (shim_prep_recv_multishot_select sqe fd buf_group flags).buf_group
        = (shim_setup_buf_ring entries buf_group).bgid ∧
      (shim_prep_recv_multishot_select sqe fd buf_group flags).flags
        = (io_uring_prep_recv_multishot sqe fd 0 0 flags).flags ||| IOSQE_BUFFER_SELECT ∧
      (shim_prep_recv_multishot_select sqe fd buf_group flags).flags = IOSQE_BUFFER_SELECT ∧
      (shim_prep_recv_multishot_select sqe fd buf_group flags).addr = 0 ∧
      (shim_prep_recv_multishot_select sqe fd buf_group flags).len = 0 ∧
      { shim_prep_recv_multishot_select sqe fd buf_group flags with flags := 0, buf_group := 0 }
        = io_uring_prep_recv_multishot sqe fd 0 0 flags := by
  have hg : (shim_prep_recv_multishot_select sqe fd buf_group flags).buf_group
      = buf_group % 65536 := by
    show buf_group % 2 ^ 32 % 2 ^ 16 = buf_group % 65536
    omega
  have hf : (shim_prep_recv_multishot_select sqe fd buf_group flags).flags
      = IOSQE_BUFFER_SELECT := by
    show (0 ||| IOSQE_BUFFER_SELECT) % 2 ^ 8 = IOSQE_BUFFER_SELECT
    decide
  have hp : (io_uring_prep_recv_multishot sqe fd 0 0 flags).flags = 0 := rfl
  refine ⟨hg, ?_, ?_, ?_, hf, rfl, rfl, rfl⟩
  · intro h
    rw [hg]
    exact Nat.mod_eq_of_lt h
  · rw [hg, setup_bgid_eq]
    norm_num
  · rw [hf, hp]
    decide

/-- C14, amended, for buffer group 7 on descriptor 5: the field holds 7, the
group registered for `bgid = 7`. -/
theorem recv_select_records_group_witness :
    (shim_prep_recv_multishot_select sqe_blank 5 7 0).buf_group = 7 ∧
      (shim_setup_buf_ring 8 7).bgid = 7 :=
  have h := recv_select_records_group sqe_blank 5 7 0 8
  ⟨h.2.1 (by norm_num), h.2.2.1.symm.trans (h.2.1 (by norm_num))⟩

/-- C14 as stated fails: for the `unsigned` value `buf_group = 65541` the
buffer-group field of the prepared entry is 5, not 65541. -/
theorem recv_select_group_truncated_counterexample :
    (shim_prep_recv_multishot_select sqe_blank 5 65541 0).buf_group = 5 ∧
      (shim_prep_recv_multishot_select sqe_blank 5 65541 0).buf_group ≠ 65541 := by
  decide

/-- C15: `shim_enter` rejects a null ring without entering the kernel. For every
`to_submit`, `min_complete`, `flags` and `ts`: with a null ring it returns
`-EINVAL` (-22) and makes no kernel entry; with a non-null ring it makes
exactly one `io_uring_enter` syscall, on `ring->ring_fd`, with `to_submit` and
`min_complete` as given, and returns that syscall's result (a result that fits
the `int` return type). -/
theorem enter_rejects_null_ring (kernel : KernelCall → Int) (ring : IoUring)
    (to_submit min_complete flags : Nat) (ts : Option Nat)
    (hts : to_submit < 2 ^ 32) (hmc : min_complete < 2 ^ 32)
    (hres : ∀ c, -(2 ^ 31) ≤ kernel c ∧ kernel c < 2 ^ 31) :
    (shim_enter kernel none to_submit min_complete flags ts).ret = -22 ∧
      (shim_enter kernel none to_submit min_complete flags ts).calls = [] ∧
      ∃ fl arg argsz,
        (shim_enter kernel (some ring) to_submit min_complete flags ts).calls
          = [KernelCall.syscall_io_uring_enter ring.ring_fd to_submit min_complete fl arg argsz] ∧
        (shim_enter kernel (some ring) to_submit min_complete flags ts).ret
          = kernel (KernelCall.syscall_io_uring_enter ring.ring_fd to_submit min_complete
              fl arg argsz) := by
  refine ⟨rfl, rfl, ?_⟩
  cases ts with
  | none =>
    refine ⟨flags % 2 ^ 32, EnterArg.null, 0, ?_, ?_⟩
    · show [KernelCall.syscall_io_uring_enter ring.ring_fd (to_submit % 2 ^ 32)
          (min_complete % 2 ^ 32) (flags % 2 ^ 32) EnterArg.null 0] = _
      rw [Nat.mod_eq_of_lt hts, Nat.mod_eq_of_lt hmc]
    · show wrap_s32 (kernel (KernelCall.syscall_io_uring_enter ring.ring_fd (to_submit % 2 ^ 32)
          (min_complete % 2 ^ 32) (flags % 2 ^ 32) EnterArg.null 0)) = _
      rw [wrap_s32_of_fits _ (hres _), Nat.mod_eq_of_lt hts, Nat.mod_eq_of_lt hmc]
  | some t =>
    refine ⟨(flags % 2 ^ 32) ||| IORING_ENTER_EXT_ARG,
      EnterArg.getevents { sigmask := 0, sigmask_sz := 0, pad := 0, ts := t % 2 ^ 64 },
      sizeof_io_uring_getevents_arg, ?_, ?_⟩
    · show [KernelCall.syscall_io_uring_enter ring.ring_fd (to_submit % 2 ^ 32)
          (min_complete % 2 ^ 32) _ _ _] = _
      rw [Nat.mod_eq_of_lt hts, Nat.mod_eq_of_lt hmc]
    · show wrap_s32 (kernel (KernelCall.syscall_io_uring_enter ring.ring_fd (to_submit % 2 ^ 32)
          (min_complete % 2 ^ 32) _ _ _)) = _
      rw [wrap_s32_of_fits _ (hres _), Nat.mod_eq_of_lt hts, Nat.mod_eq_of_lt hmc]

/-- C15 with a kernel that answers 1: on a null ring the result is -22 and
nothing is entered; on the ring with descriptor 3 there is one syscall and the
result is 1. -/
theorem enter_rejects_null_ring_witness :
    (shim_enter kernel_one none 4 1 0 (some 4096)).ret = -22 ∧
      (shim_enter kernel_one none 4 1 0 (some 4096)).calls = [] ∧
      (shim_enter kernel_one (some ring_one_ready) 4 1 0 (some 4096)).calls.length = 1 ∧
      (shim_enter kernel_one (some ring_one_ready) 4 1 0 (some 4096)).ret = 1 := by
  obtain ⟨h1, h2, fl, arg, argsz, h3, h4⟩ :=
    enter_rejects_null_ring kernel_one ring_one_ready 4 1 0 (some 4096) (by norm_num)
      (by norm_num) (fun _ => ⟨by unfold kernel_one; norm_num, by unfold kernel_one; norm_num⟩)
  exact ⟨h1, h2, by rw [h3]; rfl, by rw [h4]; rfl⟩

/-- C16: `shim_enter` selects the kernel ABI from the timeout pointer. For every
non-null ring: when `ts` is `NULL` the syscall gets the caller's flags
unmodified, `arg = NULL` and `argsz = 0`; when `ts` is not `NULL` it gets
`flags | IORING_ENTER_EXT_ARG`, a getevents argument with `sigmask = 0`,
`sigmask_sz = 0`, `pad = 0` and `ts` the address of the caller's timespec, and
`argsz = sizeof(struct io_uring_getevents_arg)` (24). For every non-`NULL`
`ts`, `shim_enter4` passes the same flags word, the same getevents argument
and the same size to `io_uring_enter2`. -/
theorem enter_selects_abi (kernel : KernelCall → Int) (ring : IoUring)
    (to_submit min_complete flags : Nat) (hflags : flags < 2 ^ 32) :
    (shim_enter kernel (some ring) to_submit min_complete flags none).calls
        = [KernelCall.syscall_io_uring_enter ring.ring_fd (to_submit % 2 ^ 32)
            (min_complete % 2 ^ 32) flags EnterArg.null 0] ∧
      sizeof_io_uring_getevents_arg = 24 ∧
      ∀ t : Nat, t < 2 ^ 64 →
        (shim_enter kernel (some ring) to_submit min_complete flags (some t)).calls
            = [KernelCall.syscall_io_uring_enter ring.ring_fd (to_submit % 2 ^ 32)
                (min_complete % 2 ^ 32) (flags ||| IORING_ENTER_EXT_ARG)
                (EnterArg.getevents { sigmask := 0, sigmask_sz := 0, pad := 0, ts := t })
                sizeof_io_uring_getevents_arg] ∧
          (shim_enter4 kernel ring to_submit min_complete flags (some t)).calls
            = [KernelCall.io_uring_enter2 (ring.ring_fd % 2 ^ 32).toNat (to_submit % 2 ^ 32)
                (min_complete % 2 ^ 32) (flags ||| IORING_ENTER_EXT_ARG)
                (EnterArg.getevents { sigmask := 0, sigmask_sz := 0, pad := 0, ts := t })
                sizeof_io_uring_getevents_arg] ∧
          (shim_enter4 kernel ring to_submit min_complete flags (some t)).calls.map KernelCall.flags
            = (shim_enter kernel (some ring) to_submit min_complete flags (some t)).calls.map
                KernelCall.flags ∧
          (shim_enter4 kernel ring to_submit min_complete flags (some t)).calls.map KernelCall.arg
            = (shim_enter kernel (some ring) to_submit min_complete flags (some t)).calls.map
                KernelCall.arg := by
  refine ⟨?_, rfl, ?_⟩
  · show [KernelCall.syscall_io_uring_enter ring.ring_fd (to_submit % 2 ^ 32)
        (min_complete % 2 ^ 32) (flags % 2 ^ 32) EnterArg.null 0] = _
    rw [Nat.mod_eq_of_lt hflags]
  · intro t ht
    have he : (shim_enter kernel (some ring) to_submit min_complete flags (some t)).calls
        = [KernelCall.syscall_io_uring_enter ring.ring_fd (to_submit % 2 ^ 32)
            (min_complete % 2 ^ 32) (flags ||| IORING_ENTER_EXT_ARG)
            (EnterArg.getevents { sigmask := 0, sigmask_sz := 0, pad := 0, ts := t })
            sizeof_io_uring_getevents_arg] := by
      show [KernelCall.syscall_io_uring_enter ring.ring_fd (to_submit % 2 ^ 32)
          (min_complete % 2 ^ 32) ((flags % 2 ^ 32) ||| IORING_ENTER_EXT_ARG)
          (EnterArg.getevents { sigmask := 0, sigmask_sz := 0, pad := 0, ts := t % 2 ^ 64 })
          sizeof_io_uring_getevents_arg] = _
      rw [Nat.mod_eq_of_lt hflags, Nat.mod_eq_of_lt ht]
    have h4 : (shim_enter4 kernel ring to_submit min_complete flags (some t)).calls
        = [KernelCall.io_uring_enter2 (ring.ring_fd % 2 ^ 32).toNat (to_submit % 2 ^ 32)
            (min_complete % 2 ^ 32) (flags ||| IORING_ENTER_EXT_ARG)
            (EnterArg.getevents { sigmask := 0, sigmask_sz := 0, pad := 0, ts := t })
            sizeof_io_uring_getevents_arg] := by
      show [KernelCall.io_uring_enter2 _ (to_submit % 2 ^ 32)
          (min_complete % 2 ^ 32) ((flags % 2 ^ 32) ||| IORING_ENTER_EXT_ARG)
          (EnterArg.getevents { sigmask := 0, sigmask_sz := 0, pad := 0, ts := t % 2 ^ 64 })
          sizeof_io_uring_getevents_arg] = _
      rw [Nat.mod_eq_of_lt hflags, Nat.mod_eq_of_lt ht]
    refine ⟨he, h4, ?_, ?_⟩
    · rw [he, h4]; rfl
    · rw [he, h4]; rfl

/-- C16 on the ring with descriptor 3, flags 1 and a timespec at address 4096:
`shim_enter` passes flags 9 with a getevents argument pointing at 4096 and
size 24, and `shim_enter4` passes the same flags word. -/
theorem enter_selects_abi_witness :
    (shim_enter kernel_one (some ring_one_ready) 4 1 1 (some 4096)).calls
        = [KernelCall.syscall_io_uring_enter 3 4 1 9 (EnterArg.getevents ⟨0, 0, 0, 4096⟩) 24] ∧
      (shim_enter4 kernel_one ring_one_ready 4 1 1 (some 4096)).calls.map KernelCall.flags
        = [9] :=
  have h := (enter_selects_abi kernel_one ring_one_ready 4 1 1 (by norm_num)).2.2 4096
    (by norm_num)
  ⟨h.1.trans (by decide), h.2.2.1.trans (by decide)⟩

/-- C17: `shim_enter2` never switches to the extended-argument ABI. For every
ring, `flags` and `ts` (`NULL` or not) it makes one syscall with the caller's
flags unchanged, the raw `ts` pointer as the argument and
`argsz = sizeof(struct __kernel_timespec)` (16). Hence, against `shim_enter`
on the same non-null ring and arguments: the flags words are equal exactly
when `ts` is `NULL` or `flags` already contains `IORING_ENTER_EXT_ARG`; the
sizes are never equal, so the (arg, argsz) pairs are never equal. -/
theorem enter2_never_extends (kernel : KernelCall → Int) (ring : IoUring)
    (to_submit min_complete flags : Nat) (ts : Option Nat) (hflags : flags < 2 ^ 32) :
    (ts = none →
        (shim_enter2 kernel ring to_submit min_complete flags ts).calls
          = [KernelCall.syscall_io_uring_enter ring.ring_fd (to_submit % 2 ^ 32)
              (min_complete % 2 ^ 32) flags EnterArg.null sizeof_kernel_timespec]) ∧
      (∀ t, t < 2 ^ 64 → ts = some t →
        (shim_enter2 kernel ring to_submit min_complete flags ts).calls
          = [KernelCall.syscall_io_uring_enter ring.ring_fd (to_submit % 2 ^ 32)
              (min_complete % 2 ^ 32) flags (EnterArg.timespec t) sizeof_kernel_timespec]) ∧
      sizeof_kernel_timespec = 16 ∧
      (shim_enter2 kernel ring to_submit min_complete flags ts).calls.map KernelCall.flags
        = [flags] ∧
      (shim_enter2 kernel ring to_submit min_complete flags ts).calls.map KernelCall.argsz
        = [16] ∧
      ((shim_enter2 kernel ring to_submit min_complete flags ts).calls.map KernelCall.flags
          = (shim_enter kernel (some ring) to_submit min_complete flags ts).calls.map
              KernelCall.flags
        ↔ ts = none ∨ flags &&& IORING_ENTER_EXT_ARG ≠ 0) ∧
      (shim_enter2 kernel ring to_submit min_complete flags ts).calls.map KernelCall.argsz
        ≠ (shim_enter kernel (some ring) to_submit min_complete flags ts).calls.map
            KernelCall.argsz ∧
      (shim_enter2 kernel ring to_submit min_complete flags ts).calls.map
          (fun c => (KernelCall.arg c, KernelCall.argsz c))
        ≠ (shim_enter kernel (some ring) to_submit min_complete flags ts).calls.map
            (fun c => (KernelCall.arg c, KernelCall.argsz c)) := by
  have hmod : flags % 2 ^ 32 = flags := Nat.mod_eq_of_lt hflags
  cases ts with
  | none =>
    have h2 : (shim_enter2 kernel ring to_submit min_complete flags none).calls
        = [KernelCall.syscall_io_uring_enter ring.ring_fd (to_submit % 2 ^ 32)
            (min_complete % 2 ^ 32) flags EnterArg.null sizeof_kernel_timespec] := by
      show [KernelCall.syscall_io_uring_enter ring.ring_fd (to_submit % 2 ^ 32)
          (min_complete % 2 ^ 32) (flags % 2 ^ 32) EnterArg.null sizeof_kernel_timespec] = _
      rw [hmod]
    have he : (shim_enter kernel (some ring) to_submit min_complete flags none).calls
        = [KernelCall.syscall_io_uring_enter ring.ring_fd (to_submit % 2 ^ 32)
            (min_complete % 2 ^ 32) flags EnterArg.null 0] := by
      show [KernelCall.syscall_io_uring_enter ring.ring_fd (to_submit % 2 ^ 32)
          (min_complete % 2 ^ 32) (flags % 2 ^ 32) EnterArg.null 0] = _
      rw [hmod]
    rw [h2, he]
    refine ⟨fun _ => rfl, fun t _ h => Option.noConfusion h, rfl, rfl, rfl, ?_, ?_, ?_⟩
    · exact ⟨fun _ => Or.inl rfl, fun _ => rfl⟩
    · intro h
      have h1 : [sizeof_kernel_timespec] = [0] := h
      exact absurd (List.cons.inj h1).1 (by decide)
    · intro h
      have h1 : [sizeof_kernel_timespec] = [0] := congrArg (List.map Prod.snd) h
      exact absurd (List.cons.inj h1).1 (by decide)
  | some t =>
    have h2 : (shim_enter2 kernel ring to_submit min_complete flags (some t)).calls
        = [KernelCall.syscall_io_uring_enter ring.ring_fd (to_submit % 2 ^ 32)
            (min_complete % 2 ^ 32) flags (EnterArg.timespec (t % 2 ^ 64))
            sizeof_kernel_timespec] := by
      show [KernelCall.syscall_io_uring_enter ring.ring_fd (to_submit % 2 ^ 32)
          (min_complete % 2 ^ 32) (flags % 2 ^ 32) (EnterArg.timespec (t % 2 ^ 64))
          sizeof_kernel_timespec] = _
      rw [hmod]
    have he : (shim_enter kernel (some ring) to_submit min_complete flags (some t)).calls
        = [KernelCall.syscall_io_uring_enter ring.ring_fd (to_submit % 2 ^ 32)
            (min_complete % 2 ^ 32) (flags ||| IORING_ENTER_EXT_ARG)
            (EnterArg.getevents { sigmask := 0, sigmask_sz := 0, pad := 0, ts := t % 2 ^ 64 })
            sizeof_io_uring_getevents_arg] := by
      show [KernelCall.syscall_io_uring_enter ring.ring_fd (to_submit % 2 ^ 32)
          (min_complete % 2 ^ 32) ((flags % 2 ^ 32) ||| IORING_ENTER_EXT_ARG) _ _] = _
      rw [hmod]
    rw [h2, he]
    refine ⟨fun h => Option.noConfusion h, ?_, rfl, rfl, rfl, ?_, ?_, ?_⟩
    · intro t2 ht2 h
      have ht : t = t2 := Option.some.inj h
      rw [ht, Nat.mod_eq_of_lt ht2]
    · show [flags] = [flags ||| IORING_ENTER_EXT_ARG] ↔ _
      constructor
      · intro h
        have h1 : flags ||| IORING_ENTER_EXT_ARG = flags := (List.cons.inj h).1.symm
        exact Or.inr ((or_ext_arg_eq_self_iff flags).1 h1)
      · intro h
        rcases h with h | h
        · exact Option.noConfusion h
        · rw [(or_ext_arg_eq_self_iff flags).2 h]
    · intro h
      have h1 : [sizeof_kernel_timespec] = [sizeof_io_uring_getevents_arg] := h
      exact absurd (List.cons.inj h1).1 (by decide)
    · intro h
      have h1 : [sizeof_kernel_timespec] = [sizeof_io_uring_getevents_arg] :=
        congrArg (List.map Prod.snd) h
      exact absurd (List.cons.inj h1).1 (by decide)

/-- C17 on the ring with descriptor 3, flags 1 and a timespec at address 4096:
`shim_enter2` passes flags 1, the pointer 4096 and size 16, where `shim_enter`
passes flags 9 and size 24. -/
theorem enter2_never_extends_witness :
    (shim_enter2 kernel_one ring_one_ready 4 1 1 (some 4096)).calls
        = [KernelCall.syscall_io_uring_enter 3 4 1 1 (EnterArg.timespec 4096) 16] ∧
      (shim_enter2 kernel_one ring_one_ready 4 1 1 (some 4096)).calls.map KernelCall.flags
        ≠ (shim_enter kernel_one (some ring_one_ready) 4 1 1 (some 4096)).calls.map
            KernelCall.flags :=
  have h := enter2_never_extends kernel_one ring_one_ready 4 1 1 (some 4096) (by norm_num)
  ⟨(h.2.1 4096 (by norm_num) rfl).trans (by decide),
    fun heq => (h.2.2.2.2.2.1.1 heq).elim (fun hn => Option.noConfusion hn)
      (fun hb => hb (by decide))⟩

end Zerg
